import Mathlib

/-!
Verification of the distributed synchronization system (Raft consensus,
lock manager, priority queue, cache coherence, consistent hashing and
phi-accrual failure detection) against its natural-language specification.

Each Python module of the system is shallowly embedded: classes become
structures, `dict`/`set` fields become association lists / membership lists
(order irrelevant, keys unique in reachable states), Python `int` becomes
`Int`/`Nat`, Python `float` arithmetic is modelled over `ℝ`.  Wall-clock
fields (`created_at`, `last_accessed`, timestamps inside message ids,
timeouts) are omitted: no verified property depends on them.
-/

set_option maxHeartbeats 1000000

namespace DistSync

/-! ### Association-list dictionaries (Python `dict` / `set` modelling) -/

/-- Lookup in an insertion-ordered dictionary (`d[k]`, `k in d`). -/
def dlookup {α β : Type} [DecidableEq α] (l : List (α × β)) (k : α) : Option β :=
  match l with
  | [] => none
  | (a, b) :: rest => if a = k then some b else dlookup rest k

/-- Python `d[k] = v`: replace in place if the key exists, else append. -/
def dinsert {α β : Type} [DecidableEq α] (l : List (α × β)) (k : α) (v : β) :
    List (α × β) :=
  match l with
  | [] => [(k, v)]
  | (a, b) :: rest => if a = k then (a, v) :: rest else (a, b) :: dinsert rest k v

/-- Python `del d[k]` (keys being unique, removing every pair with key `k`). -/
def dremove {α β : Type} [DecidableEq α] (l : List (α × β)) (k : α) : List (α × β) :=
  l.filter (fun p => p.1 ≠ k)

/-- Python `set.add` on a set modelled as a duplicate-free list. -/
def setAdd (l : List String) (x : String) : List String :=
  if x ∈ l then l else l ++ [x]

/-- Python `set.remove` / `set.discard`. -/
def setRemove (l : List String) (x : String) : List String :=
  l.filter (fun y => y ≠ x)

/-- Python `s.union(t)` on sets modelled as duplicate-free lists. -/
def setUnion (l r : List String) : List String :=
  l ++ r.filter (fun y => y ∉ l)

/-! ### Raft consensus (`src/consensus/raft.py`) -/

namespace Raft

/-- `LogEntry` of `raft.py` (the opaque `command` dict is a `String`). -/
structure LogEntry where
  term : Int
  command : String
  index : Int
  deriving Repr, DecidableEq

/-- `RaftState` enum. -/
inductive Role where
  | follower | candidate | leader
  deriving Repr, DecidableEq

/-- The fields of `RaftNode` that `handle_append_entries` reads or writes. -/
structure Node where
  currentTerm : Int
  votedFor : Option String
  log : List LogEntry
  commitIndex : Int
  role : Role
  leaderId : Option String
  deriving Repr, DecidableEq

/-- An `AppendEntries` request dict (entries already decoded to `LogEntry`,
as `handle_append_entries` itself rebuilds them field by field). -/
structure AppendReq where
  term : Int
  leaderId : String
  prevLogIndex : Int
  prevLogTerm : Int
  entries : List LogEntry
  leaderCommit : Int
  deriving Repr, DecidableEq

/-- The reply dict of `handle_append_entries`. -/
structure AppendResp where
  term : Int
  success : Bool
  matchIndex : Int
  deriving Repr, DecidableEq

/-- Python list slice `l[:k]` for an `int` bound `k` (negative bounds count
from the end, clamped at zero). -/
def pySliceTo (l : List LogEntry) (k : Int) : List LogEntry :=
  if k < 0 then l.take (l.length - (-k).toNat) else l.take k.toNat

/-- Does the log have an entry at position `i` (an `int`) whose term is `t`?
This is the membership test the specification's AppendEntries sentence
speaks about: the log "contains an entry at prevLogIndex with prevLogTerm". -/
def logContains (log : List LogEntry) (i : Int) (t : Int) : Prop :=
  0 ≤ i ∧ (log.get? i.toNat).map LogEntry.term = some t

instance (log : List LogEntry) (i t : Int) : Decidable (logContains log i t) := by
  unfold logContains; infer_instance

/-- `RaftNode.handle_append_entries` (raft.py lines 284-350).  The election
timer reset and the asynchronous `apply_committed_entries` task are pure
side effects on wall-clock state and are not modelled. -/
def handle_append_entries (st : Node) (r : AppendReq) : Node × AppendResp :=
  -- Update term if necessary
  let st :=
    if r.term > st.currentTerm then
      { st with currentTerm := r.term, role := Role.follower, votedFor := none }
    else st
  -- Received message from leader
  let st :=
    if r.term ≥ st.currentTerm then
      { st with leaderId := some r.leaderId, role := Role.follower }
    else st
  -- Check if term is current and log matches at prev_log_index
  if r.term ≥ st.currentTerm ∧
      (r.prevLogIndex < 0 ∨
        (r.prevLogIndex < (st.log.length : Int) ∧
          (st.log.get? r.prevLogIndex.toNat).map LogEntry.term = some r.prevLogTerm)) then
    let log' :=
      if r.entries.isEmpty then st.log
      else
        let insertIndex := r.prevLogIndex + 1
        (if insertIndex < (st.log.length : Int) then pySliceTo st.log insertIndex
         else st.log) ++ r.entries
    let commit' :=
      if r.leaderCommit > st.commitIndex then
        min r.leaderCommit ((log'.length : Int) - 1)
      else st.commitIndex
    let st := { st with log := log', commitIndex := commit' }
    (st, { term := st.currentTerm, success := true,
           matchIndex := (st.log.length : Int) - 1 })
  else
    (st, { term := st.currentTerm, success := false, matchIndex := -1 })

end Raft

end DistSync

namespace DistSync

/-! ### Lock manager (`src/nodes/lock_manager.py`) -/

namespace LockMgr

/-- `LockType` enum. -/
inductive LockType where
  | shared | exclusive
  deriving Repr, DecidableEq

/-- `NodeState` enum of `base_node.py`. -/
inductive NodeState where
  | follower | candidate | leader | offline
  deriving Repr, DecidableEq

/-- An element of a lock's `waiting_queue` (the `requested_at` wall-clock
timestamp is not modelled). -/
structure WaitEntry where
  requesterId : String
  lockType : LockType
  deriving Repr, DecidableEq

/-- The `Lock` class (its `created_at` / `last_accessed` / `timeout`
wall-clock fields are not modelled; `holders` is a Python set, kept as a
duplicate-free list). -/
structure Lock where
  lockType : LockType
  holders : List String
  waitingQueue : List WaitEntry
  deriving Repr, DecidableEq

/-- `Lock.can_acquire` (the `requester_id` argument is unused in the
source as well). -/
def Lock.can_acquire (lk : Lock) (_requester_id : String)
    (lock_type : LockType) : Bool :=
  if lk.holders.isEmpty then true
  else if lock_type = LockType.shared ∧ lk.lockType = LockType.shared then true
  else false

/-- `Lock.acquire`: returns the Python boolean result together with the
mutated lock. -/
def Lock.acquire (lk : Lock) (holder_id : String) (lock_type : LockType) :
    Bool × Lock :=
  if lk.can_acquire holder_id lock_type then
    (true, { lk with holders := setAdd lk.holders holder_id,
                     lockType := lock_type })
  else (false, lk)

/-- `Lock.release`. -/
def Lock.release (lk : Lock) (holder_id : String) : Bool × Lock :=
  if holder_id ∈ lk.holders then
    (true, { lk with holders := setRemove lk.holders holder_id })
  else (false, lk)

/-- `Lock.is_locked`. -/
def Lock.is_locked (lk : Lock) : Bool :=
  !lk.holders.isEmpty

/-- The wait-for graph `map<requester_id, set<requester_id>>`. -/
abbrev Graph := List (String × List String)

/-- The reply dicts of the lock manager, with their literal `status` and
`message` strings. -/
structure Reply where
  status : String
  message : Option String := none
  lockId : Option String := none
  holderId : Option String := none
  requesterId : Option String := none
  leaderId : Option String := none
  lockType : Option LockType := none
  queuePosition : Option Nat := none
  deriving Repr, DecidableEq

/-- The fields of `LockManagerNode` the verified operations touch. -/
structure LMNode where
  nodeState : NodeState
  leaderId : Option String
  locks : List (String × Lock)
  wait_for_graph : Graph
  deriving Repr, DecidableEq

/-- `temp_graph[node]` lookup used by the DFS (`for neighbor in
temp_graph[node]` guarded by `if node in temp_graph`). -/
def neighborsOf (g : Graph) (n : String) : List String :=
  (dlookup g n).getD []

/-- The `for neighbor in temp_graph[node]` loop of `has_cycle`.  `hc` is the
nested recursive call (instantiated with `has_cycle g f` below); `visited`
is threaded through the loop, `rec_stack` is fixed. -/
def has_cycle_loop (hc : String → List String → List String → Bool × List String)
    (ns : List String) (visited rec_stack : List String) : Bool × List String :=
  match ns with
  | [] => (false, visited)
  | n :: rest =>
      if n ∈ visited then
        if n ∈ rec_stack then (true, visited)
        else has_cycle_loop hc rest visited rec_stack
      else
        match hc n visited rec_stack with
        | (true, v) => (true, v)
        | (false, v) => has_cycle_loop hc rest v rec_stack

/-- The recursive `has_cycle` of `would_cause_deadlock`.  `visited` is the
threaded mutable set; `rec_stack` holds the chain of active calls (Python
removes `node` again before returning `False`, which the call-by-value
parameter models exactly).  The Python recursion is unbounded but always
terminates because `visited` grows at every nested call; the embedding makes
the measure explicit through `fuel` (decremented per nesting level), and
`would_cause_deadlock` passes fuel that is proved sufficient
(`AuxInv`/`LoopInv` below), so the fuel-exhausted branch is never taken. -/
def has_cycle (g : Graph) (fuel : Nat) (node : String)
    (visited rec_stack : List String) : Bool × List String :=
  match fuel with
  | 0 => (false, visited)
  | Nat.succ f =>
      has_cycle_loop (has_cycle g f) (neighborsOf g node) (node :: visited)
        (node :: rec_stack)


/-- All node names occurring in a graph (keys and neighbour values); the
DFS can only ever visit these nodes, so their number bounds its recursion
depth. -/
def universeList (g : Graph) : List String :=
  g.map Prod.fst ++ (g.map Prod.snd).flatten

/-- The temporary graph `dict(wait_for_graph)` with
`temp[requester] = temp.get(requester, set()) ∪ holders` that
`would_cause_deadlock` builds (`dinsert` covers both the fresh-key and the
present-key branch of the source). -/
def augmentedGraph (g : Graph) (requester_id : String)
    (holders : List String) : Graph :=
  dinsert g requester_id
    (setUnion (neighborsOf g requester_id) holders)

/-- `LockManagerNode.would_cause_deadlock` (lock_manager.py 254-296): build
the temporary graph `dict(wait_for_graph)` with
`temp[requester] = temp.get(requester, set()) ∪ lock.holders` and run the
cycle DFS from the requester. -/
def would_cause_deadlock (st : LMNode) (requester_id lock_id : String) :
    Bool :=
  match dlookup st.locks lock_id with
  | none => false
  | some lock =>
      let temp_graph := augmentedGraph st.wait_for_graph requester_id lock.holders
      (has_cycle temp_graph ((universeList temp_graph).length + 1)
        requester_id [] []).1

/-- `LockManagerNode.acquire_lock` (lock_manager.py 99-175). -/
def acquire_lock (st : LMNode) (lock_id requester_id : String)
    (lock_type : LockType) : Reply × LMNode :=
  -- Only leader can grant locks
  if st.nodeState ≠ NodeState.leader then
    ({ status := "error", message := some "Not the leader",
       leaderId := st.leaderId }, st)
  -- Check for deadlock
  else if would_cause_deadlock st requester_id lock_id then
    ({ status := "error", message := some "Deadlock detected",
       lockId := some lock_id }, st)
  else
    match dlookup st.locks lock_id with
    | none =>
        -- Create lock if doesn't exist
        let lk : Lock := { lockType := lock_type, holders := [requester_id],
                           waitingQueue := [] }
        ({ status := "acquired", lockId := some lock_id,
           holderId := some requester_id, lockType := some lock_type },
         { st with locks := dinsert st.locks lock_id lk })
    | some lk =>
        -- Try to acquire existing lock
        match lk.acquire requester_id lock_type with
        | (true, lk') =>
            ({ status := "acquired", lockId := some lock_id,
               holderId := some requester_id, lockType := some lock_type },
             { st with locks := dinsert st.locks lock_id lk' })
        | (false, _) =>
            -- Add to waiting queue and update wait-for graph
            let lk' := { lk with waitingQueue :=
                lk.waitingQueue ++ [⟨requester_id, lock_type⟩] }
            let g' := dinsert st.wait_for_graph requester_id
                (setUnion (neighborsOf st.wait_for_graph requester_id)
                  lk.holders)
            ({ status := "waiting", lockId := some lock_id,
               requesterId := some requester_id,
               queuePosition := some lk'.waitingQueue.length },
             { st with locks := dinsert st.locks lock_id lk',
                       wait_for_graph := g' })

/-- The `while lock.waiting_queue and not lock.is_locked()` loop of
`process_waiting_queue`, with the `break` after a successful grant. -/
def pwq_loop (wq : List WaitEntry) (holders : List String)
    (lock_type : LockType) (g : Graph) :
    List WaitEntry × List String × LockType × Graph :=
  match wq with
  | [] => ([], holders, lock_type, g)
  | w :: rest =>
      if holders.isEmpty then
        match Lock.acquire ⟨lock_type, holders, rest⟩ w.requesterId
            w.lockType with
        | (true, lk') => (rest, lk'.holders, lk'.lockType,
            dremove g w.requesterId)
        | (false, lk') => pwq_loop rest lk'.holders lk'.lockType g
      else (wq, holders, lock_type, g)

/-- `LockManagerNode.process_waiting_queue` (lock_manager.py 232-252),
acting on the lock object and the wait-for graph. -/
def process_waiting_queue (lk : Lock) (g : Graph) : Lock × Graph :=
  let r := pwq_loop lk.waitingQueue lk.holders lk.lockType g
  ({ lockType := r.2.2.1, holders := r.2.1, waitingQueue := r.1 }, r.2.2.2)

/-- `LockManagerNode.release_lock` (lock_manager.py 177-230). -/
def release_lock (st : LMNode) (lock_id holder_id : String) :
    Reply × LMNode :=
  if st.nodeState ≠ NodeState.leader then
    ({ status := "error", message := some "Not the leader",
       leaderId := st.leaderId }, st)
  else
    match dlookup st.locks lock_id with
    | none =>
        ({ status := "error", message := some "Lock not found",
           lockId := some lock_id }, st)
    | some lk =>
        match lk.release holder_id with
        | (false, _) =>
            ({ status := "error", message := some "Not a lock holder",
               lockId := some lock_id }, st)
        | (true, lk1) =>
            -- Remove from wait-for graph
            let g1 := dremove st.wait_for_graph holder_id
            -- Process waiting queue
            let (lk2, g2) :=
              if ¬ lk1.is_locked ∧ lk1.waitingQueue ≠ [] then
                process_waiting_queue lk1 g1
              else (lk1, g1)
            -- Clean up if no holders and no waiting
            let locks' :=
              if ¬ lk2.is_locked ∧ lk2.waitingQueue = [] then
                dremove st.locks lock_id
              else dinsert st.locks lock_id lk2
            ({ status := "released", lockId := some lock_id,
               holderId := some holder_id },
             { st with locks := locks', wait_for_graph := g2 })

/-- `b` is a direct successor of `a` in the wait-for graph. -/
def Edge (g : Graph) (a b : String) : Prop :=
  b ∈ neighborsOf g a

instance (g : Graph) (a b : String) : Decidable (Edge g a b) := by
  unfold Edge; infer_instance

/-- Reflexive-transitive reachability along graph edges. -/
inductive Reach (g : Graph) : String → String → Prop where
  | refl (a : String) : Reach g a a
  | head {a b c : String} : Edge g a b → Reach g b c → Reach g a c

/-- The finishing invariant of the DFS: every visited node that is off the
recursion stack has all of its successors visited and off the stack. -/
def blacksClosed (g : Graph) (V S : List String) : Prop :=
  ∀ v ∈ V, v ∉ S → ∀ w, Edge g v w → (w ∈ V ∧ w ∉ S)

/-- Node universe of the DFS as a finite set. -/
def UFin (g : Graph) : Finset String :=
  (universeList g).toFinset

/-- Induction statement for `has_cycle`: a `false` answer leaves the
closure invariant intact and marks the start node visited. -/
def AuxInv (g : Graph) (fuel : Nat) : Prop :=
  ∀ (u : String) (V S V' : List String),
    u ∈ UFin g → u ∉ V → (∀ s ∈ S, s ∈ V) → blacksClosed g V S →
    ((UFin g).filter (fun x => x ∉ V)).card < fuel →
    has_cycle g fuel u V S = (false, V') →
    (∀ x ∈ V, x ∈ V') ∧ u ∈ V' ∧ blacksClosed g V' S

/-- Induction statement for `has_cycle_loop`: a `false` answer visits every
listed neighbour, none of which can be on the stack. -/
def LoopInv (g : Graph) (fuel : Nat) : Prop :=
  ∀ (ns : List String) (V S V' : List String),
    (∀ n ∈ ns, n ∈ UFin g) → (∀ s ∈ S, s ∈ V) → blacksClosed g V S →
    ((UFin g).filter (fun x => x ∉ V)).card < fuel →
    has_cycle_loop (has_cycle g fuel) ns V S = (false, V') →
    (∀ x ∈ V, x ∈ V') ∧ (∀ n ∈ ns, n ∈ V' ∧ n ∉ S) ∧ blacksClosed g V' S

end LockMgr

end DistSync

namespace DistSync

/-! ### Distributed queue (`src/nodes/queue_node.py`) -/

namespace MsgQueue

/-- `MessageStatus` enum. -/
inductive MessageStatus where
  | pending | processing | delivered | failed
  deriving Repr, DecidableEq

/-- The `Message` class (its `created_at` timestamp is not modelled). -/
structure Message where
  message_id : String
  data : String
  priority : Int
  status : MessageStatus
  attempts : Nat
  max_attempts : Nat
  delivered_to : List String
  deriving Repr, DecidableEq

/-- The `Message.__init__` constructor: `status=PENDING`, `attempts=0`,
`max_attempts=3`, empty `delivered_to`. -/
def mkMessage (message_id : String) (data : String) (priority : Int) :
    Message :=
  { message_id := message_id, data := data, priority := priority,
    status := MessageStatus.pending, attempts := 0, max_attempts := 3,
    delivered_to := [] }

/-- Message id `f"{node_id}:{timestamp}:{len(messages)}"`.  The wall-clock
timestamp component is omitted; uniqueness is carried entirely by the
`len(self.messages)` counter (the `messages` dict never shrinks), which the
model keeps. -/
def mkId (node_id : String) (k : Nat) : String :=
  node_id ++ ":" ++ toString k

/-- The reply dicts of `QueueNode`.  `messageText` holds the plain-string
`'message'` entries of error replies; `message` holds the `to_dict()`-style
message payload of a successful dequeue. -/
structure QReply where
  status : String
  messageText : Option String := none
  message_id : Option String := none
  queue_name : Option String := none
  consumer_id : Option String := none
  message : Option Message := none
  reason : Option String := none
  attempts : Option Nat := none
  deriving Repr, DecidableEq

/-- The fields of `QueueNode` the verified operations touch.  The consistent
hash ring and `replication_factor` only feed the network stub
`replicate_message` (a no-op on local state) and are not part of the queue
state; the `consumers` registry is written but read by no verified
property. -/
structure QNode where
  node_id : String
  queues : List (String × List String)
  messages : List (String × Message)
  deriving Repr, DecidableEq

/-- A fresh queue node (`QueueNode.__init__`). -/
def initNode (node_id : String) : QNode :=
  { node_id := node_id, queues := [], messages := [] }

/-- `QueueNode.create_queue`. -/
def create_queue (st : QNode) (queue_name : String) : QReply × QNode :=
  if (dlookup st.queues queue_name).isSome then
    ({ status := "error", messageText := some "Queue already exists",
       queue_name := some queue_name }, st)
  else
    ({ status := "success", messageText := some "Queue created",
       queue_name := some queue_name },
     { st with queues := dinsert st.queues queue_name [] })

/-- `QueueNode._insert_by_priority`: insert before the first entry whose
message has a strictly smaller priority, skipping ids without a message
record, else append. -/
def insert_by_priority (msgs : List (String × Message)) (message : Message) :
    List String → List String
  | [] => [message.message_id]
  | mid :: rest =>
      match dlookup msgs mid with
      | some existing =>
          if message.priority > existing.priority then
            message.message_id :: mid :: rest
          else mid :: insert_by_priority msgs message rest
      | none => mid :: insert_by_priority msgs message rest

/-- `QueueNode.enqueue` (queue_node.py 188-231): implicit queue creation,
message-id allocation, record insertion and priority insertion.  Replica
selection and `replicate_message` touch no local queue state and are not
modelled. -/
def enqueue (st : QNode) (queue_name : String) (message_data : String)
    (priority : Int) : QReply × QNode :=
  let st :=
    if (dlookup st.queues queue_name).isNone then
      (create_queue st queue_name).2
    else st
  let message_id := mkId st.node_id st.messages.length
  let message := mkMessage message_id message_data priority
  let st := { st with messages := dinsert st.messages message_id message }
  let st := { st with
    queues := dinsert st.queues queue_name
      (insert_by_priority st.messages message
        ((dlookup st.queues queue_name).getD [])) }
  ({ status := "success", message_id := some message_id,
     queue_name := some queue_name }, st)

/-- The recursion of `QueueNode.dequeue` on the queue contents: pop the
head, drop ids without a message record (recursing as the source does), and
deliver the first live message.  The popped prefix stays removed from the
stored queue exactly as the Python `popleft` mutations leave it. -/
def dequeue_go (st : QNode) (queue_name consumer_id : String) :
    List String → QReply × QNode
  | [] =>
      ({ status := "empty", messageText := some "Queue is empty",
         queue_name := some queue_name }, st)
  | mid :: rest =>
      let st := { st with queues := dinsert st.queues queue_name rest }
      match dlookup st.messages mid with
      | none => dequeue_go st queue_name consumer_id rest
      | some m =>
          let m' := { m with status := MessageStatus.processing,
                             attempts := m.attempts + 1,
                             delivered_to := setAdd m.delivered_to consumer_id }
          let st := { st with messages := dinsert st.messages mid m' }
          ({ status := "success", message := some m',
             queue_name := some queue_name,
             consumer_id := some consumer_id }, st)

/-- `QueueNode.dequeue` (queue_node.py 250-298). -/
def dequeue (st : QNode) (queue_name consumer_id : String) :
    QReply × QNode :=
  match dlookup st.queues queue_name with
  | none =>
      ({ status := "error", messageText := some "Queue not found",
         queue_name := some queue_name }, st)
  | some q => dequeue_go st queue_name consumer_id q

/-- `QueueNode.acknowledge` (queue_node.py 300-326): set `DELIVERED`;
nothing is removed from any queue. -/
def acknowledge (st : QNode) (message_id consumer_id : String) :
    QReply × QNode :=
  match dlookup st.messages message_id with
  | none =>
      ({ status := "error", messageText := some "Message not found",
         message_id := some message_id }, st)
  | some m =>
      ({ status := "success", message_id := some message_id,
         consumer_id := some consumer_id },
       { st with
          messages := dinsert st.messages message_id
            { m with status := MessageStatus.delivered } })

/-- `QueueNode.negative_acknowledge` (queue_node.py 328-368).  In the
re-queue branch the source sets `status = PENDING` and only then touches
`self.queues[queue_name]`; a missing queue raises `KeyError`, which
`process_message` turns into an error reply after the status write — the
`none` branch models exactly that partial effect. -/
def negative_acknowledge (st : QNode) (message_id queue_name : String) :
    QReply × QNode :=
  match dlookup st.messages message_id with
  | none =>
      ({ status := "error", messageText := some "Message not found",
         message_id := some message_id }, st)
  | some m =>
      if m.attempts ≥ m.max_attempts then
        ({ status := "failed", message_id := some message_id,
           reason := some "Max attempts reached" },
         { st with
            messages := dinsert st.messages message_id
              { m with status := MessageStatus.failed } })
      else
        let m' := { m with status := MessageStatus.pending }
        let st := { st with messages := dinsert st.messages message_id m' }
        match dlookup st.queues queue_name with
        | some q =>
            ({ status := "requeued", message_id := some message_id,
               queue_name := some queue_name, attempts := some m'.attempts },
             { st with
                queues := dinsert st.queues queue_name
                  (insert_by_priority st.messages m' q) })
        | none =>
            ({ status := "error", messageText := some "KeyError" }, st)

/-- The client-visible operations of `QueueNode.process_message`
(`stats` is read-only and omitted). -/
inductive QOp where
  | create (queue_name : String)
  | enq (queue_name data : String) (priority : Int)
  | deq (queue_name consumer_id : String)
  | ack (message_id consumer_id : String)
  | nack (message_id queue_name : String)
  deriving Repr, DecidableEq

/-- State reached by one operation. -/
def applyOp (st : QNode) : QOp → QNode
  | QOp.create qn => (create_queue st qn).2
  | QOp.enq qn d p => (enqueue st qn d p).2
  | QOp.deq qn cid => (dequeue st qn cid).2
  | QOp.ack mid cid => (acknowledge st mid cid).2
  | QOp.nack mid qn => (negative_acknowledge st mid qn).2

/-- State reached by a sequence of operations. -/
def runOps (st : QNode) (ops : List QOp) : QNode :=
  ops.foldl applyOp st

/-- Priority of a message id under a message map (0 for unknown ids, which
reachable states never contain in queues). -/
def prioOf (msgs : List (String × Message)) (mid : String) : Int :=
  match dlookup msgs mid with
  | some m => m.priority
  | none => 0

/-- A queue's ordered list is sorted by non-increasing priority. -/
def qSorted (msgs : List (String × Message)) (q : List String) : Prop :=
  q.Pairwise (fun a b => prioOf msgs b ≤ prioOf msgs a)

/-- The key-shape invariant of the message store: every key was allocated
by `mkId` below the current counter (which is `len(messages)`). -/
def keysShaped (st : QNode) : Prop :=
  ∀ k ∈ st.messages.map Prod.fst,
    ∃ i, i < st.messages.length ∧ k = mkId st.node_id i

/-- The queue invariant: every id stored in a queue has a message record,
and every queue is sorted by non-increasing priority. -/
def queuesWellFormed (st : QNode) : Prop :=
  ∀ qn q, dlookup st.queues qn = some q →
    (∀ mid ∈ q, (dlookup st.messages mid).isSome) ∧ qSorted st.messages q

/-- A message id that has permanently left the system: its record has
exhausted its attempts and it sits in no queue. -/
def deadId (st : QNode) (mid : String) : Prop :=
  (∃ m, dlookup st.messages mid = some m ∧ m.max_attempts ≤ m.attempts) ∧
  (∀ qn q, dlookup st.queues qn = some q → mid ∉ q)

/-- Each message record is stored under its own `message_id`. -/
def idCoherent (st : QNode) : Prop :=
  ∀ k m, dlookup st.messages k = some m → m.message_id = k

/-- The reachable-state invariant of a queue node. -/
def QGood (st : QNode) : Prop :=
  keysShaped st ∧ idCoherent st ∧ queuesWellFormed st

end MsgQueue

/-! ### Decimal printing of naturals (`Nat.toString`), needed to show that
freshly allocated message ids are distinct from all earlier ones. -/

/-- Reference decimal digit list of a natural number. -/
def natDigList (n : Nat) : List Char :=
  if _h : n < 10 then [Nat.digitChar n]
  else natDigList (n / 10) ++ [Nat.digitChar (n % 10)]
decreasing_by exact Nat.div_lt_self (by omega) (by omega)

/-- Numeric value of a digit character. -/
def digitVal (c : Char) : Nat :=
  c.toNat - 48

/-- Value of a digit list read left to right. -/
def digitsVal (l : List Char) : Nat :=
  l.foldl (fun a c => a * 10 + digitVal c) 0


/-! ### Distributed cache (`src/nodes/cache_node.py`) -/

namespace Cache

/-- MESI `CacheState` enum. -/
inductive CacheState where
  | modified | exclusive | shared | invalid
  deriving Repr, DecidableEq

/-- The `CacheEntry` class (`created_at` / `last_accessed` wall-clock fields
are not modelled). -/
structure CacheEntry where
  key : String
  value : String
  state : CacheState
  access_count : Nat
  version : Nat
  deriving Repr, DecidableEq

/-- `CacheEntry.__init__`: `access_count = 0`, `version = 0`. -/
def mkEntry (key value : String) (state : CacheState) : CacheEntry :=
  { key := key, value := value, state := state, access_count := 0,
    version := 0 }

/-- `CacheEntry.access` (the `last_accessed` touch is not modelled). -/
def CacheEntry.access (e : CacheEntry) : CacheEntry :=
  { e with access_count := e.access_count + 1 }

/-- The `LRUCache` class over an ordered dictionary. -/
structure LRUCache where
  capacity : Nat
  cache : List (String × CacheEntry)
  deriving Repr, DecidableEq

/-- `OrderedDict.move_to_end`. -/
def moveToEnd (l : List (String × CacheEntry)) (k : String) :
    List (String × CacheEntry) :=
  match dlookup l k with
  | none => l
  | some v => dremove l k ++ [(k, v)]

/-- `LRUCache.get`: move the hit entry to the most-recent end and bump its
access count (the entry object is shared with the dictionary, so the stored
entry is the bumped one). -/
def LRUCache.get (c : LRUCache) (key : String) :
    Option CacheEntry × LRUCache :=
  match dlookup c.cache key with
  | none => (none, c)
  | some entry =>
      let entry' := entry.access
      (some entry',
       { c with cache := dremove c.cache key ++ [(key, entry')] })

/-- `LRUCache.put`: move an existing key to the end, store the entry, and
evict the least-recently-used (front) entry when over capacity, returning
it. -/
def LRUCache.put (c : LRUCache) (key : String) (entry : CacheEntry) :
    Option CacheEntry × LRUCache :=
  let c :=
    if (dlookup c.cache key).isSome then
      { c with cache := moveToEnd c.cache key }
    else c
  let c := { c with cache := dinsert c.cache key entry }
  if c.cache.length > c.capacity then
    match c.cache with
    | [] => (none, c)
    | (_, e0) :: rest => (some e0, { c with cache := rest })
  else (none, c)

/-- The reply dicts of `CacheNode.put`. -/
structure CReply where
  status : String
  key : Option String := none
  state : Option CacheState := none
  version : Option Nat := none
  deriving Repr, DecidableEq

/-- The fields of `CacheNode` that `put` touches, with the default LRU
policy.  `hits`/`misses` are untouched by `put`; `cluster_nodes` only feeds
stubbed network sends. -/
structure CacheNode where
  node_id : String
  cache : LRUCache
  cache_directory : List (String × List String)
  invalidations : Nat
  deriving Repr, DecidableEq

/-- `CacheNode.invalidate_peers` (cache_node.py 336-361): the per-peer sends
are network stubs; the local effect replaces `directory[key]` by
`{exclude_node}` (or empties it) when the key is known. -/
def invalidate_peers (st : CacheNode) (key : String)
    (exclude_node : Option String) : CacheNode :=
  match dlookup st.cache_directory key with
  | none => st
  | some _ =>
      match exclude_node with
      | some ex =>
          { st with cache_directory := dinsert st.cache_directory key [ex] }
      | none =>
          { st with cache_directory := dinsert st.cache_directory key [] }

/- `CacheNode.write_back` mutates only the handed-out entry object (the
evicted copy), so it has no effect on the node state and is not modelled. -/

/-- `CacheNode.put` (cache_node.py 248-295). -/
def put (st : CacheNode) (key value : String) (_requester_id : String) :
    CReply × CacheNode :=
  -- Check if key exists in other caches
  let cond : Bool :=
    match dlookup st.cache_directory key with
    | some holders => decide (holders.length > 1)
    | none => false
  let st := if cond then invalidate_peers st key (some st.node_id) else st
  let state := if cond then CacheState.modified else CacheState.exclusive
  -- Create or update entry
  match (st.cache.get key).1, (st.cache.get key).2 with
  | some entry, cache1 =>
      let entry' := { entry with value := value, state := state,
                                 version := entry.version + 1,
                                 access_count := entry.access_count + 1 }
      let st := { st with
        cache := { cache1 with
                   cache := dinsert cache1.cache key entry' } }
      let st := { st with
        cache_directory := dinsert st.cache_directory key [st.node_id] }
      ({ status := "success", key := some key, state := some state,
         version := some entry'.version }, st)
  | none, cache1 =>
      let entry := mkEntry key value state
      let st := { st with cache := (cache1.put key entry).2 }
      let st := { st with
        cache_directory := dinsert st.cache_directory key [st.node_id] }
      ({ status := "success", key := some key, state := some state,
         version := some entry.version }, st)

end Cache


/-! ### Consistent hash ring (`src/nodes/queue_node.py`, class
`ConsistentHash`) -/

namespace Ring

/-- The `ConsistentHash` class.  `ring` is the `Dict[int, str]` of virtual
points, `sorted_keys` the sorted key list, `nodes` the member set.  The MD5
hash `_hash` is not bit-modelled: every operation takes the hash function
`h` as a parameter (the verified properties hold for any `h`; collision
hypotheses appear explicitly where the claim assumes them). -/
structure ConsistentHash where
  num_virtual_nodes : Nat
  ring : List (Nat × String)
  sorted_keys : List Nat
  nodes : List String
  deriving Repr, DecidableEq

/-- `ConsistentHash.__init__` (the default argument is 150 virtual
nodes). -/
def initRing (num_virtual_nodes : Nat) : ConsistentHash :=
  { num_virtual_nodes := num_virtual_nodes, ring := [], sorted_keys := [],
    nodes := [] }

/-- The virtual key string `f"{node_id}:{i}"`. -/
def virtualKey (node_id : String) (i : Nat) : String :=
  node_id ++ ":" ++ toString i

/-- `sorted(self.ring.keys())` (insertion sort; dict keys are distinct, so
any sorting algorithm yields this list). -/
def sortKeys (l : List Nat) : List Nat :=
  l.insertionSort (· ≤ ·)

/-- `ConsistentHash.add_node` (queue_node.py 70-83). -/
def add_node (h : String → Nat) (ch : ConsistentHash) (node_id : String) :
    ConsistentHash :=
  if node_id ∈ ch.nodes then ch
  else
    let ch := { ch with nodes := setAdd ch.nodes node_id }
    let ring' := (List.range ch.num_virtual_nodes).foldl
      (fun r i => dinsert r (h (virtualKey node_id i)) node_id) ch.ring
    { ch with ring := ring',
              sorted_keys := sortKeys (ring'.map Prod.fst) }

/-- `ConsistentHash.remove_node` (queue_node.py 85-99); `if hash_value in
self.ring: del ...` is removal-if-present, which `dremove` is. -/
def remove_node (h : String → Nat) (ch : ConsistentHash)
    (node_id : String) : ConsistentHash :=
  if node_id ∉ ch.nodes then ch
  else
    let ch := { ch with nodes := setRemove ch.nodes node_id }
    let ring' := (List.range ch.num_virtual_nodes).foldl
      (fun r i => dremove r (h (virtualKey node_id i))) ch.ring
    { ch with ring := ring',
              sorted_keys := sortKeys (ring'.map Prod.fst) }

/-- `ConsistentHash.get_node` (queue_node.py 101-114): first virtual point
whose hash is at least `hash(key)`, wrapping to the first point.  (With an
empty `sorted_keys` but non-empty `ring` — impossible for states the class
builds — Python would raise; the model returns `none`.) -/
def get_node (h : String → Nat) (ch : ConsistentHash) (key : String) :
    Option String :=
  if ch.ring.isEmpty then none
  else
    let hash_value := h key
    match ch.sorted_keys.find? (fun rk => rk ≥ hash_value) with
    | some rk => dlookup ch.ring rk
    | none =>
        match ch.sorted_keys with
        | [] => none
        | k0 :: _ => dlookup ch.ring k0

end Ring

/-! ### Phi-accrual failure detector
(`src/communication/failure_detector.py`) -/

namespace Phi

/-- The statistics fields of `PhiAccrualFailureDetector`.  `intervals` is
the sample deque (`maxlen=200`; the bound matters only to `heartbeat`,
which is wall-clock-driven and not modelled); `threshold` and
`last_heartbeat` do not enter `phi`'s value, whose `elapsed` argument
stands for `time.time() - last_heartbeat`.  Python float arithmetic is
modelled over `ℝ`. -/
structure PhiAccrual where
  intervals : List ℝ
  mean : ℝ
  variance : ℝ
  std_deviation : ℝ

/-- `sum(self.intervals) / len(self.intervals)`. -/
noncomputable def sampleMean (l : List ℝ) : ℝ :=
  l.sum / l.length

/-- `sum((x - mean)^2 for x in intervals) / len(intervals)`. -/
noncomputable def sampleVariance (l : List ℝ) : ℝ :=
  ((l.map (fun x => (x - sampleMean l) ^ 2)).sum) / l.length

/-- `PhiAccrualFailureDetector._update_statistics` (failure_detector.py
64-77). -/
noncomputable def update_statistics (st : PhiAccrual) : PhiAccrual :=
  if st.intervals.length < 2 then st
  else
    { st with mean := sampleMean st.intervals,
              variance := sampleVariance st.intervals,
              std_deviation := Real.sqrt (sampleVariance st.intervals) }

/-- `PhiAccrualFailureDetector.phi` (failure_detector.py 79-105).  Over `ℝ`
the probability `p` is strictly positive whenever the `std_deviation <
0.0001` guard falls through, so the `float('inf')` branch of the source is
unreachable; it is mapped to `0` here and proved untaken where `phi` is
characterized. -/
noncomputable def phi (st : PhiAccrual) (elapsed : ℝ) : ℝ :=
  if st.intervals.length < 2 then 0
  else if st.std_deviation < 0.0001 then 0
  else
    let exponent := -((elapsed - st.mean) ^ 2) / (2 * st.variance)
    let p := Real.exp exponent / (st.std_deviation * Real.sqrt (2 * Real.pi))
    if 0 < p then -Real.logb 10 p else 0

/-- The formula the specification states for `phi`, with a standard
deviation clamped below by the floor `1e-4`
(`phi = -log10(exp(-(Δ-µ)²/(2σ²)) / (σ √(2π)))`).  Written from the
claim's words, for comparison with the source's `phi`. -/
noncomputable def phiClaim (mu sigma elapsed : ℝ) : ℝ :=
  let sigmaC := max sigma 0.0001;
  -Real.logb 10 (Real.exp (-((elapsed - mu) ^ 2) / (2 * sigmaC ^ 2)) / (sigmaC * Real.sqrt (2 * Real.pi)))

end Phi

end DistSync

namespace DistSync

open Raft in
/-- C1 (counterexample): the claim's "success iff the term is current AND the
log contains an entry at prevLogIndex with prevLogTerm" is false: on an empty
log a request with `prevLogIndex = -1` is answered with `success = true`
although the log contains no entry at `-1` (the term condition does hold). -/
theorem c1_append_entries_cex :
    (handle_append_entries
        { currentTerm := 0, votedFor := none, log := [], commitIndex := 0,
          role := Role.follower, leaderId := none }
        { term := 0, leaderId := "n1", prevLogIndex := -1, prevLogTerm := 0,
          entries := [], leaderCommit := 0 }).2.success = true
    ∧ (0 : Int) ≤ 0
    ∧ ¬ logContains ([] : List LogEntry) (-1) 0 := by
  refine ⟨by decide, le_refl 0, ?_⟩
  intro h
  exact absurd h.1 (by decide)

namespace Raft

/-- A successful indexed lookup of a term implies the index is in range. -/
theorem lt_of_get?_term {log : List LogEntry} {n : Nat} {t : Int}
    (h : (log.get? n).map LogEntry.term = some t) : n < log.length := by
  by_contra hn
  rw [List.get?_eq_none.mpr (by omega)] at h
  exact Option.noConfusion h

/-- The raw matching condition `handle_append_entries` tests on the log is
equivalent to "prevLogIndex is negative or the log contains an entry at
prevLogIndex with term prevLogTerm". -/
theorem matchCond_iff (log : List LogEntry) (i t : Int) :
    (i < 0 ∨ (i < (log.length : Int) ∧
        (log.get? i.toNat).map LogEntry.term = some t))
      ↔ (i < 0 ∨ logContains log i t) := by
  constructor
  · rintro (h | ⟨hlt, hmap⟩)
    · exact Or.inl h
    · by_cases hneg : i < 0
      · exact Or.inl hneg
      · exact Or.inr ⟨by omega, hmap⟩
  · rintro (h | ⟨hge, hmap⟩)
    · exact Or.inl h
    · exact Or.inr ⟨by have := lt_of_get?_term hmap; omega, hmap⟩

/-- A slice bound at or beyond the length leaves the list unchanged. -/
theorem pySliceTo_of_ge (l : List LogEntry) (k : Int)
    (h : (l.length : Int) ≤ k) : pySliceTo l k = l := by
  unfold pySliceTo
  rw [if_neg (by omega)]
  exact List.take_of_length_le (by omega)

end Raft

open Raft in
/-- C1 (amended): `handle_append_entries` replies `success = true` iff the
request's term is at least the receiver's currentTerm and either
`prevLogIndex < 0` or the log contains an entry at `prevLogIndex` whose term
is `prevLogTerm`; on success with non-empty entries the log becomes the
prefix up to `prevLogIndex` (Python slice semantics) followed by the new
entries, and `commitIndex` becomes `min(leaderCommit, index of the last log
entry)` when `leaderCommit` exceeds the old `commitIndex` (and is unchanged
otherwise). -/
theorem c1_append_entries_amended (st : Node) (r : AppendReq) :
    ((handle_append_entries st r).2.success = true ↔
      (st.currentTerm ≤ r.term ∧
        (r.prevLogIndex < 0 ∨ logContains st.log r.prevLogIndex r.prevLogTerm)))
    ∧ ((handle_append_entries st r).2.success = true → r.entries ≠ [] →
        (handle_append_entries st r).1.log
          = pySliceTo st.log (r.prevLogIndex + 1) ++ r.entries)
    ∧ ((handle_append_entries st r).2.success = true →
        r.leaderCommit > st.commitIndex →
        (handle_append_entries st r).1.commitIndex
          = min r.leaderCommit (((handle_append_entries st r).1.log.length : Int) - 1))
    ∧ ((handle_append_entries st r).2.success = true →
        r.leaderCommit ≤ st.commitIndex →
        (handle_append_entries st r).1.commitIndex = st.commitIndex) := by
  refine ⟨?_, ?_, ?_, ?_⟩
  · rw [← and_congr_right (fun _ => matchCond_iff st.log r.prevLogIndex r.prevLogTerm)]
    simp only [handle_append_entries]
    split_ifs <;> simp_all <;> omega
  · simp only [handle_append_entries]
    split_ifs <;> intro hs hne <;> simp_all <;>
      exact (pySliceTo_of_ge _ _ (by omega)).symm
  · simp only [handle_append_entries]
    split_ifs <;> intro hs hc <;> simp_all <;> omega
  · simp only [handle_append_entries]
    split_ifs <;> intro hs hc <;> simp_all <;> omega

open Raft in
/-- C1 (witness): a concrete successful AppendEntries: a two-entry log, a
matching `prevLogIndex = 0`, one new entry and `leaderCommit = 5` yield the
truncated-and-extended log and `commitIndex = min 5 1 = 1`. -/
theorem c1_append_entries_amended_witness :
    ((handle_append_entries
        { currentTerm := 1, votedFor := none,
          log := [{ term := 1, command := "a", index := 0 },
                  { term := 1, command := "b", index := 1 }],
          commitIndex := 0, role := Role.follower, leaderId := none }
        { term := 1, leaderId := "n2", prevLogIndex := 0, prevLogTerm := 1,
          entries := [{ term := 1, command := "c", index := 1 }],
          leaderCommit := 5 }).2.success = true)
    ∧ ((handle_append_entries
        { currentTerm := 1, votedFor := none,
          log := [{ term := 1, command := "a", index := 0 },
                  { term := 1, command := "b", index := 1 }],
          commitIndex := 0, role := Role.follower, leaderId := none }
        { term := 1, leaderId := "n2", prevLogIndex := 0, prevLogTerm := 1,
          entries := [{ term := 1, command := "c", index := 1 }],
          leaderCommit := 5 }).1.log
        = pySliceTo
            [{ term := 1, command := "a", index := 0 },
             { term := 1, command := "b", index := 1 }] (0 + 1)
          ++ [{ term := 1, command := "c", index := 1 }])
    ∧ ((handle_append_entries
        { currentTerm := 1, votedFor := none,
          log := [{ term := 1, command := "a", index := 0 },
                  { term := 1, command := "b", index := 1 }],
          commitIndex := 0, role := Role.follower, leaderId := none }
        { term := 1, leaderId := "n2", prevLogIndex := 0, prevLogTerm := 1,
          entries := [{ term := 1, command := "c", index := 1 }],
          leaderCommit := 5 }).1.commitIndex
        = min 5 (((handle_append_entries
            { currentTerm := 1, votedFor := none,
              log := [{ term := 1, command := "a", index := 0 },
                      { term := 1, command := "b", index := 1 }],
              commitIndex := 0, role := Role.follower, leaderId := none }
            { term := 1, leaderId := "n2", prevLogIndex := 0, prevLogTerm := 1,
              entries := [{ term := 1, command := "c", index := 1 }],
              leaderCommit := 5 }).1.log.length : Int) - 1)) := by
  refine ⟨?_, ?_, ?_⟩
  · exact (c1_append_entries_amended _ _).1.mpr
      ⟨by decide, Or.inr ⟨by decide, by decide⟩⟩
  · exact (c1_append_entries_amended _ _).2.1 (by decide) (by decide)
  · exact (c1_append_entries_amended _ _).2.2.1 (by decide) (by decide)

namespace LockMgr

theorem dlookup_mem {β : Type} {l : List (String × β)} {k : String} {v : β}
    (h : dlookup l k = some v) : (k, v) ∈ l := by
  induction l with
  | nil => simp [dlookup] at h
  | cons p rest ih =>
      obtain ⟨a, b⟩ := p
      by_cases hak : a = k
      · subst hak
        simp [dlookup] at h
        subst h
        exact List.mem_cons_self _ _
      · simp [dlookup, hak] at h
        exact List.mem_cons_of_mem _ (ih h)

theorem dlookup_dinsert_self {β : Type} (l : List (String × β)) (k : String)
    (v : β) : dlookup (dinsert l k v) k = some v := by
  induction l with
  | nil => simp [dinsert, dlookup]
  | cons p rest ih =>
      obtain ⟨a, b⟩ := p
      by_cases hak : a = k
      · subst hak; simp [dinsert, dlookup]
      · simp [dinsert, dlookup, hak, ih]

theorem mem_setUnion_right {l r : List String} {x : String} (h : x ∈ r) :
    x ∈ setUnion l r := by
  unfold setUnion
  by_cases hx : x ∈ l
  · exact List.mem_append.mpr (Or.inl hx)
  · exact List.mem_append.mpr (Or.inr (List.mem_filter.mpr ⟨h, by simpa⟩))

theorem neighborsOf_subset_UFin {g : Graph} {n w : String}
    (h : w ∈ neighborsOf g n) : w ∈ UFin g := by
  unfold neighborsOf at h
  cases hd : dlookup g n with
  | none => rw [hd] at h; simp at h
  | some l =>
      rw [hd] at h
      simp only [Option.getD_some] at h
      have hm := dlookup_mem hd
      unfold UFin universeList
      rw [List.mem_toFinset]
      refine List.mem_append.mpr (Or.inr ?_)
      rw [List.mem_flatten]
      exact ⟨l, List.mem_map.mpr ⟨(n, l), hm, rfl⟩, h⟩

theorem key_mem_UFin {g : Graph} {n : String} {v : List String}
    (h : dlookup g n = some v) : n ∈ UFin g := by
  unfold UFin universeList
  rw [List.mem_toFinset]
  exact List.mem_append.mpr (Or.inl (List.mem_map.mpr ⟨(n, v), dlookup_mem h, rfl⟩))

theorem dfs_loop_inv (g : Graph) (f : Nat) (hA : AuxInv g f) : LoopInv g f := by
  intro ns
  induction ns with
  | nil =>
      intro V S V' _ _ hbc _ hres
      simp only [has_cycle_loop, Prod.mk.injEq] at hres
      obtain ⟨-, hV⟩ := hres
      subst hV
      exact ⟨fun x hx => hx, (by intro n hn; cases hn), hbc⟩
  | cons n rest ihrest =>
      intro V S V' hns hSV hbc hcard hres
      simp only [has_cycle_loop] at hres
      by_cases hnV : n ∈ V
      · rw [if_pos hnV] at hres
        by_cases hnS : n ∈ S
        · rw [if_pos hnS] at hres
          simp at hres
        · rw [if_neg hnS] at hres
          obtain ⟨hVV', hrest, hbc'⟩ := ihrest V S V'
            (fun m hm => hns m (List.mem_cons_of_mem _ hm)) hSV hbc hcard hres
          refine ⟨hVV', ?_, hbc'⟩
          intro m hm
          rcases List.mem_cons.mp hm with h | h
          · exact h ▸ ⟨hVV' n hnV, hnS⟩
          · exact hrest m h
      · rw [if_neg hnV] at hres
        cases hc : has_cycle g f n V S with
        | mk b v =>
            rw [hc] at hres
            cases b
            · simp only [] at hres
              obtain ⟨hVv, hnv, hbcv⟩ := hA n V S v
                (hns n (List.mem_cons_self n rest)) hnV hSV hbc hcard hc
              have hcard2 : ((UFin g).filter (fun x => x ∉ v)).card < f := by
                have hsub : (UFin g).filter (fun x => x ∉ v) ⊆
                    (UFin g).filter (fun x => x ∉ V) := by
                  intro x hx
                  rw [Finset.mem_filter] at hx ⊢
                  exact ⟨hx.1, fun hxv => hx.2 (hVv x hxv)⟩
                have := Finset.card_le_card hsub
                omega
              obtain ⟨hvV', hrest, hbc'⟩ := ihrest v S V'
                (fun m hm => hns m (List.mem_cons_of_mem _ hm))
                (fun s hs => hVv s (hSV s hs)) hbcv hcard2 hres
              refine ⟨fun x hx => hvV' x (hVv x hx), ?_, hbc'⟩
              intro m hm
              rcases List.mem_cons.mp hm with h | h
              · exact h ▸ ⟨hvV' n hnv, fun hs => hnV (hSV n hs)⟩
              · exact hrest m h
            · simp at hres

theorem dfs_aux_inv (g : Graph) : ∀ fuel : Nat, AuxInv g fuel := by
  intro fuel
  induction fuel with
  | zero =>
      intro u V S V' _ _ _ _ hcard _
      exact absurd hcard (by omega)
  | succ f ih =>
      intro u V S V' hU huV hSV hbc hcard hres
      simp only [has_cycle] at hres
      have hu : u ∈ (UFin g).filter (fun x => x ∉ V) :=
        Finset.mem_filter.mpr ⟨hU, by simpa using huV⟩
      have hss : (UFin g).filter (fun x => x ∉ (u :: V)) ⊆
          ((UFin g).filter (fun x => x ∉ V)).erase u := by
        intro x hx
        rw [Finset.mem_filter] at hx
        rw [Finset.mem_erase, Finset.mem_filter]
        have hxu : x ≠ u := by
          intro e
          exact hx.2 (by rw [e]; exact List.mem_cons_self u V)
        exact ⟨hxu, hx.1, fun hv => hx.2 (List.mem_cons_of_mem _ hv)⟩
      have hcard' : ((UFin g).filter (fun x => x ∉ (u :: V))).card < f := by
        have h1 := Finset.card_le_card hss
        have h2 := Finset.card_erase_of_mem hu
        have h3 := Finset.card_pos.mpr ⟨u, hu⟩
        omega
      have hSV' : ∀ s ∈ u :: S, s ∈ u :: V := by
        intro s hs
        rcases List.mem_cons.mp hs with h | h
        · rw [h]; exact List.mem_cons_self u V
        · exact List.mem_cons_of_mem _ (hSV s h)
      have hbc' : blacksClosed g (u :: V) (u :: S) := by
        intro v hv hvs w hw
        have hvne : v ≠ u := fun e => hvs (by rw [e]; exact List.mem_cons_self u S)
        have hvV : v ∈ V := by
          rcases List.mem_cons.mp hv with h | h
          · exact absurd h hvne
          · exact h
        have hvS : v ∉ S := fun h => hvs (List.mem_cons_of_mem _ h)
        obtain ⟨hw1, hw2⟩ := hbc v hvV hvS w hw
        refine ⟨List.mem_cons_of_mem _ hw1, ?_⟩
        intro hm
        rcases List.mem_cons.mp hm with h | h
        · exact huV (h ▸ hw1)
        · exact hw2 h
      obtain ⟨hVV', hns, hbcV'⟩ := dfs_loop_inv g f ih (neighborsOf g u)
        (u :: V) (u :: S) V' (fun n hn => neighborsOf_subset_UFin hn)
        hSV' hbc' hcard' hres
      refine ⟨fun x hx => hVV' x (List.mem_cons_of_mem _ hx),
        hVV' u (List.mem_cons_self u V), ?_⟩
      intro v hv hvS w hw
      by_cases hvu : v = u
      · subst hvu
        obtain ⟨hw1, hw2⟩ := hns w hw
        exact ⟨hw1, fun h => hw2 (List.mem_cons_of_mem _ h)⟩
      · have hvS' : v ∉ u :: S := by
          intro hm
          rcases List.mem_cons.mp hm with h | h
          · exact hvu h
          · exact hvS h
        obtain ⟨hw1, hw2⟩ := hbcV' v hv hvS' w hw
        exact ⟨hw1, fun h => hw2 (List.mem_cons_of_mem _ h)⟩

theorem reach_stays_black {g : Graph} {V S : List String}
    (hbc : blacksClosed g V S) :
    ∀ {a c : String}, Reach g a c → a ∈ V → a ∉ S → c ∈ V ∧ c ∉ S := by
  intro a c h
  induction h with
  | refl a => intro h1 h2; exact ⟨h1, h2⟩
  | head e r ih =>
      intro h1 h2
      obtain ⟨hb1, hb2⟩ := hbc _ h1 h2 _ e
      exact ih hb1 hb2

theorem has_cycle_complete {g : Graph} {r b : String}
    (hrU : r ∈ UFin g) (he : Edge g r b) (hr : Reach g b r) :
    (has_cycle g ((universeList g).length + 1) r [] []).1 = true := by
  by_contra hfalse
  cases hres : has_cycle g ((universeList g).length + 1) r [] [] with
  | mk bb V' =>
      rw [hres] at hfalse
      simp only [Bool.not_eq_true] at hfalse
      have hbb : bb = false := by simpa using hfalse
      subst hbb
      have hres' : has_cycle_loop (has_cycle g (universeList g).length)
          (neighborsOf g r) [r] [r] = (false, V') := by
        have := hres
        simp only [has_cycle] at this
        exact this
      have hbc0 : blacksClosed g [r] [r] := by
        intro v hv hvs
        rcases List.mem_cons.mp hv with h | h
        · exact absurd (h ▸ List.mem_cons_self r []) hvs
        · cases h
      have hU : (UFin g).card ≤ (universeList g).length :=
        List.toFinset_card_le _
      have hrU' : r ∈ (UFin g) := hrU
      have hcard : ((UFin g).filter (fun x => x ∉ ([r] : List String))).card
          < (universeList g).length := by
        have hsub : (UFin g).filter (fun x => x ∉ ([r] : List String)) ⊆
            (UFin g).erase r := by
          intro x hx
          rw [Finset.mem_filter] at hx
          rw [Finset.mem_erase]
          exact ⟨fun e => hx.2 (by rw [e]; exact List.mem_cons_self r []), hx.1⟩
        have h1 := Finset.card_le_card hsub
        have h2 := Finset.card_erase_of_mem hrU'
        have h3 := Finset.card_pos.mpr ⟨r, hrU'⟩
        omega
      obtain ⟨-, hns, hbc'⟩ := dfs_loop_inv g (universeList g).length
        (dfs_aux_inv g (universeList g).length) (neighborsOf g r) [r] [r] V'
        (fun n hn => neighborsOf_subset_UFin hn)
        (fun s hs => hs) hbc0 hcard hres'
      obtain ⟨hbV', hbnr⟩ := hns b he
      obtain ⟨-, hrr⟩ := reach_stays_black hbc' hr hbV' hbnr
      exact hrr (List.mem_cons_self r [])

theorem would_cause_deadlock_complete {st : LMNode}
    {requester_id lock_id : String} {lk : Lock}
    (hlk : dlookup st.locks lock_id = some lk)
    (h : ∃ hd ∈ lk.holders,
      Reach (augmentedGraph st.wait_for_graph requester_id lk.holders)
        hd requester_id) :
    would_cause_deadlock st requester_id lock_id = true := by
  unfold would_cause_deadlock
  rw [hlk]
  obtain ⟨hd, hmem, hreach⟩ := h
  refine has_cycle_complete ?_ ?_ hreach
  · exact key_mem_UFin (dlookup_dinsert_self _ _ _)
  · unfold Edge neighborsOf augmentedGraph
    rw [dlookup_dinsert_self]
    exact mem_setUnion_right hmem

theorem acquire_lock_deadlock_reply (st : LMNode)
    (lock_id requester_id : String) (lock_type : LockType)
    (hleader : st.nodeState = NodeState.leader)
    (hwcd : would_cause_deadlock st requester_id lock_id = true) :
    acquire_lock st lock_id requester_id lock_type =
      ({ status := "error", message := some "Deadlock detected",
         lockId := some lock_id }, st) := by
  unfold acquire_lock
  rw [if_neg (by simp [hleader]), if_pos hwcd]

end LockMgr

open LockMgr in
/-- C2: if the requester already has a path in the wait-for graph (augmented
with the edges requester → holder) from some current holder back to itself —
i.e. adding those edges closes a cycle — then `acquire_lock` on the leader
replies status error / "Deadlock detected" and returns the state unchanged:
nothing is enqueued, the graph is untouched and no holder loses the lock. -/
theorem c2_acquire_deadlock_refused (st : LMNode)
    (lock_id requester_id : String) (lock_type : LockType) (lk : Lock)
    (hleader : st.nodeState = NodeState.leader)
    (hlk : dlookup st.locks lock_id = some lk)
    (hcycle : ∃ hd ∈ lk.holders,
      Reach (augmentedGraph st.wait_for_graph requester_id lk.holders)
        hd requester_id) :
    acquire_lock st lock_id requester_id lock_type =
      ({ status := "error", message := some "Deadlock detected",
         lockId := some lock_id }, st) :=
  acquire_lock_deadlock_reply st lock_id requester_id lock_type hleader
    (would_cause_deadlock_complete hlk hcycle)

open LockMgr in
/-- C2 (witness): holder c2 of lock A waits on c1; c1 requesting A closes
the cycle c1 → c2 → c1 and is refused with the state unchanged. -/
theorem c2_acquire_deadlock_refused_witness :
    acquire_lock
      { nodeState := NodeState.leader, leaderId := some "n1",
        locks := [("A", { lockType := LockType.exclusive, holders := ["c2"],
                          waitingQueue := [] })],
        wait_for_graph := [("c2", ["c1"])] }
      "A" "c1" LockType.exclusive =
      ({ status := "error", message := some "Deadlock detected",
         lockId := some "A" },
       { nodeState := NodeState.leader, leaderId := some "n1",
         locks := [("A", { lockType := LockType.exclusive, holders := ["c2"],
                           waitingQueue := [] })],
         wait_for_graph := [("c2", ["c1"])] }) :=
  c2_acquire_deadlock_refused _ "A" "c1" LockType.exclusive _ rfl rfl
    ⟨"c2", by decide, Reach.head (by decide) (Reach.refl "c1")⟩

open LockMgr in
/-- C10: a requester that is already among the holders of an existing lock
is refused with "Deadlock detected" whatever mode it requests (the self-edge
added by the deadlock check forms a cycle), the state being returned
unchanged: no re-acquisition, no shared-to-exclusive upgrade, no enqueue. -/
theorem c10_holder_reacquire_refused (st : LMNode)
    (lock_id requester_id : String) (lock_type : LockType) (lk : Lock)
    (hleader : st.nodeState = NodeState.leader)
    (hlk : dlookup st.locks lock_id = some lk)
    (hholder : requester_id ∈ lk.holders) :
    acquire_lock st lock_id requester_id lock_type =
      ({ status := "error", message := some "Deadlock detected",
         lockId := some lock_id }, st) :=
  acquire_lock_deadlock_reply st lock_id requester_id lock_type hleader
    (would_cause_deadlock_complete hlk
      ⟨requester_id, hholder, Reach.refl requester_id⟩)

open LockMgr in
/-- C10 (witness): c1 holds L shared and asks for it again exclusively; the
reply is the deadlock error and the state is unchanged. -/
theorem c10_holder_reacquire_refused_witness :
    acquire_lock
      { nodeState := NodeState.leader, leaderId := some "n1",
        locks := [("L", { lockType := LockType.shared, holders := ["c1"],
                          waitingQueue := [] })],
        wait_for_graph := [] }
      "L" "c1" LockType.exclusive =
      ({ status := "error", message := some "Deadlock detected",
         lockId := some "L" },
       { nodeState := NodeState.leader, leaderId := some "n1",
         locks := [("L", { lockType := LockType.shared, holders := ["c1"],
                           waitingQueue := [] })],
         wait_for_graph := [] }) :=
  c10_holder_reacquire_refused _ "L" "c1" LockType.exclusive _ rfl rfl
    (by decide)

open LockMgr in
/-- C3 (amended): when a release empties the holder set of a lock with a
non-empty waiting queue, exactly the head waiter is granted — the lock's
holders become that single requester with its requested mode, the remaining
waiters (including any further consecutive SHARED waiters) stay queued —
and the released holder and the granted waiter leave the wait-for graph. -/
theorem c3_release_grants_head_only (st : LMNode)
    (lock_id holder_id : String) (lk : Lock) (w : WaitEntry)
    (rest : List WaitEntry)
    (hleader : st.nodeState = NodeState.leader)
    (hlk : dlookup st.locks lock_id = some lk)
    (hhold : lk.holders = [holder_id])
    (hwq : lk.waitingQueue = w :: rest) :
    release_lock st lock_id holder_id =
      ({ status := "released", lockId := some lock_id,
         holderId := some holder_id },
       { st with
          locks := dinsert st.locks lock_id
            { lockType := w.lockType, holders := [w.requesterId],
              waitingQueue := rest },
          wait_for_graph :=
            dremove (dremove st.wait_for_graph holder_id) w.requesterId }) := by
  unfold release_lock
  rw [if_neg (by simp [hleader]), hlk]
  simp [Lock.release, hhold, setRemove, Lock.is_locked, hwq,
    process_waiting_queue, pwq_loop, Lock.acquire, Lock.can_acquire, setAdd]


open LockMgr in
/-- C3 (counterexample): lock L is held exclusively by c1 with two SHARED
waiters c2 and c3 queued; releasing c1 empties the holder set, yet only the
head waiter c2 is granted — c3 is still waiting, refuting the claim that
consecutive SHARED waiters are all admitted by one release. -/
theorem c3_release_cex :
    (release_lock
        { nodeState := NodeState.leader, leaderId := some "n1",
          locks := [("L", { lockType := LockType.exclusive,
                            holders := ["c1"],
                            waitingQueue := [⟨"c2", LockType.shared⟩,
                                             ⟨"c3", LockType.shared⟩] })],
          wait_for_graph := [] } "L" "c1").1.status = "released"
    ∧ dlookup (release_lock
        { nodeState := NodeState.leader, leaderId := some "n1",
          locks := [("L", { lockType := LockType.exclusive,
                            holders := ["c1"],
                            waitingQueue := [⟨"c2", LockType.shared⟩,
                                             ⟨"c3", LockType.shared⟩] })],
          wait_for_graph := [] } "L" "c1").2.locks "L"
      = some { lockType := LockType.shared, holders := ["c2"],
               waitingQueue := [⟨"c3", LockType.shared⟩] } :=
  ⟨rfl, rfl⟩

open LockMgr in
/-- C3 (witness): a release with holder set {c1} and waiting queue
[c2 SHARED, c3 SHARED] grants exactly c2 and leaves c3 queued. -/
theorem c3_release_grants_head_only_witness :
    release_lock
      { nodeState := NodeState.leader, leaderId := some "n1",
        locks := [("M", { lockType := LockType.exclusive,
                          holders := ["d1"],
                          waitingQueue := [⟨"d2", LockType.shared⟩,
                                           ⟨"d3", LockType.shared⟩] })],
        wait_for_graph := [("d2", ["d1"]), ("d3", ["d1"])] } "M" "d1" =
      ({ status := "released", lockId := some "M", holderId := some "d1" },
       { nodeState := NodeState.leader, leaderId := some "n1",
         locks := [("M", { lockType := LockType.shared,
                           holders := ["d2"],
                           waitingQueue := [⟨"d3", LockType.shared⟩] })],
         wait_for_graph := [("d3", ["d1"])] }) := by
  have h := c3_release_grants_head_only
    { nodeState := NodeState.leader, leaderId := some "n1",
      locks := [("M", { lockType := LockType.exclusive,
                        holders := ["d1"],
                        waitingQueue := [⟨"d2", LockType.shared⟩,
                                         ⟨"d3", LockType.shared⟩] })],
      wait_for_graph := [("d2", ["d1"]), ("d3", ["d1"])] }
    "M" "d1" _ ⟨"d2", LockType.shared⟩ [⟨"d3", LockType.shared⟩]
    rfl rfl rfl rfl
  rw [h]
  rfl


end DistSync

namespace DistSync

theorem dlookup_mem' {β : Type} {l : List (String × β)} {k : String} {v : β}
    (h : dlookup l k = some v) : (k, v) ∈ l := by
  induction l with
  | nil => simp [dlookup] at h
  | cons p rest ih =>
      obtain ⟨a, b⟩ := p
      by_cases hak : a = k
      · subst hak
        simp [dlookup] at h
        subst h
        exact List.mem_cons_self _ _
      · simp [dlookup, hak] at h
        exact List.mem_cons_of_mem _ (ih h)

theorem dlookup_dinsert_self' {β : Type} (l : List (String × β)) (k : String)
    (v : β) : dlookup (dinsert l k v) k = some v := by
  induction l with
  | nil => simp [dinsert, dlookup]
  | cons p rest ih =>
      obtain ⟨a, b⟩ := p
      by_cases hak : a = k
      · subst hak; simp [dinsert, dlookup]
      · simp [dinsert, dlookup, hak, ih]

theorem dlookup_dinsert_ne {β : Type} (l : List (String × β)) {k k' : String}
    (v : β) (h : k' ≠ k) : dlookup (dinsert l k v) k' = dlookup l k' := by
  have h' : k ≠ k' := Ne.symm h
  induction l with
  | nil => simp [dinsert, dlookup, h']
  | cons p rest ih =>
      obtain ⟨a, b⟩ := p
      by_cases hak : a = k
      · subst hak
        simp [dinsert, dlookup, h']
      · simp only [dinsert, if_neg hak]
        by_cases hak' : a = k'
        · simp [dlookup, hak']
        · simp [dlookup, hak', ih]

theorem dinsert_of_fresh {β : Type} {l : List (String × β)} {k : String}
    (v : β) (h : dlookup l k = none) : dinsert l k v = l ++ [(k, v)] := by
  induction l with
  | nil => simp [dinsert]
  | cons p rest ih =>
      obtain ⟨a, b⟩ := p
      by_cases hak : a = k
      · subst hak; simp [dlookup] at h
      · simp [dlookup, hak] at h
        simp [dinsert, hak, ih h]

theorem dinsert_map_fst {β : Type} {l : List (String × β)} {k : String}
    {v0 : β} (v : β) (h : dlookup l k = some v0) :
    (dinsert l k v).map Prod.fst = l.map Prod.fst := by
  induction l with
  | nil => simp [dlookup] at h
  | cons p rest ih =>
      obtain ⟨a, b⟩ := p
      by_cases hak : a = k
      · subst hak; simp [dinsert]
      · simp [dlookup, hak] at h
        simp [dinsert, hak, ih h]

theorem dinsert_length {β : Type} {l : List (String × β)} {k : String}
    {v0 : β} (v : β) (h : dlookup l k = some v0) :
    (dinsert l k v).length = l.length := by
  have := dinsert_map_fst v h
  have h1 := congrArg List.length this
  simp at h1
  exact h1

theorem dlookup_isSome_of_map_fst {β : Type} {l l' : List (String × β)}
    (hmap : l'.map Prod.fst = l.map Prod.fst) (k : String)
    (h : (dlookup l k).isSome) : (dlookup l' k).isSome := by
  induction l' generalizing l with
  | nil =>
      cases l with
      | nil => simpa [dlookup] using h
      | cons p rest => simp at hmap
  | cons p rest ih =>
      cases l with
      | nil => simp at hmap
      | cons q rest' =>
          obtain ⟨a, b⟩ := p
          obtain ⟨c, d⟩ := q
          simp at hmap
          obtain ⟨hac, hrest⟩ := hmap
          subst hac
          by_cases hak : a = k
          · simp [dlookup, hak]
          · simp [dlookup, hak] at h ⊢
            exact ih hrest h

theorem digitsVal_append (l : List Char) (c : Char) :
    digitsVal (l ++ [c]) = (digitsVal l) * 10 + digitVal c := by
  unfold digitsVal
  rw [List.foldl_append]
  rfl

theorem digitVal_digitChar {n : Nat} (h : n < 10) :
    digitVal (Nat.digitChar n) = n := by
  interval_cases n <;> rfl

theorem digitsVal_natDigList (n : Nat) : digitsVal (natDigList n) = n := by
  induction n using Nat.strong_induction_on with
  | _ n ih =>
      unfold natDigList
      split
      · next h =>
          unfold digitsVal
          simp [List.foldl, digitVal_digitChar h]
      · next h =>
          rw [digitsVal_append,
            ih (n / 10) (Nat.div_lt_self (by omega) (by omega)),
            digitVal_digitChar (Nat.mod_lt _ (by omega))]
          omega

theorem natDigList_inj {a b : Nat} (h : natDigList a = natDigList b) :
    a = b := by
  have ha := digitsVal_natDigList a
  rw [h, digitsVal_natDigList] at ha
  omega

theorem toDigitsCore_eq_natDigList (fuel : Nat) :
    ∀ (n : Nat) (ds : List Char), n < fuel →
      Nat.toDigitsCore 10 fuel n ds = natDigList n ++ ds := by
  induction fuel with
  | zero => intro n ds h; omega
  | succ f ih =>
      intro n ds h
      unfold Nat.toDigitsCore
      by_cases h10 : n / 10 = 0
      · have hn : n < 10 := by omega
        rw [if_pos h10]
        unfold natDigList
        rw [dif_pos hn, Nat.mod_eq_of_lt hn]
        rfl
      · rw [if_neg h10]
        have hlt : n / 10 < f :=
          Nat.lt_of_lt_of_le (Nat.div_lt_self (by omega) (by omega))
            (by omega)
        rw [ih (n / 10) _ hlt]
        conv_rhs => rw [natDigList]
        rw [dif_neg (by omega)]
        simp

theorem toString_nat_eq (n : Nat) :
    (toString n : String) = (natDigList n).asString := by
  show Nat.repr n = _
  unfold Nat.repr Nat.toDigits
  rw [toDigitsCore_eq_natDigList (n + 1) n [] (by omega)]
  simp

theorem toString_nat_inj {a b : Nat}
    (h : (toString a : String) = toString b) : a = b := by
  rw [toString_nat_eq, toString_nat_eq] at h
  apply natDigList_inj
  have h2 := congrArg String.data h
  simpa [List.asString] using h2


namespace MsgQueue

theorem string_eq_of_data_eq {s t : String} (h : s.data = t.data) : s = t := by
  cases s
  cases t
  exact congrArg String.mk h

theorem mkId_inj_right {node : String} {i j : Nat}
    (h : mkId node i = mkId node j) : i = j := by
  unfold mkId at h
  have hd := congrArg String.data h
  simp only [String.data_append] at hd
  exact toString_nat_inj (string_eq_of_data_eq (List.append_cancel_left hd))

theorem mkId_fresh {st : QNode} (hk : keysShaped st) :
    dlookup st.messages (mkId st.node_id st.messages.length) = none := by
  cases h : dlookup st.messages (mkId st.node_id st.messages.length) with
  | none => rfl
  | some m =>
      have hmem : mkId st.node_id st.messages.length ∈
          st.messages.map Prod.fst :=
        List.mem_map.mpr ⟨_, dlookup_mem' h, rfl⟩
      obtain ⟨i, hi, he⟩ := hk _ hmem
      exact absurd (mkId_inj_right he).symm (by omega)

end MsgQueue

end DistSync

namespace DistSync
namespace MsgQueue

theorem dlookup_dinsert_cases {β : Type} {l : List (String × β)}
    {k k' : String} {v w : β} (h : dlookup (dinsert l k v) k' = some w) :
    (k' = k ∧ w = v) ∨ (k' ≠ k ∧ dlookup l k' = some w) := by
  by_cases hk : k' = k
  · subst hk
    rw [dlookup_dinsert_self'] at h
    exact Or.inl ⟨rfl, (Option.some.injEq _ _ ▸ h).symm⟩
  · rw [dlookup_dinsert_ne _ _ hk] at h
    exact Or.inr ⟨hk, h⟩

theorem ibp_mem (msgs : List (String × Message)) (m : Message)
    (q : List String) (x : String) :
    x ∈ insert_by_priority msgs m q ↔ x = m.message_id ∨ x ∈ q := by
  induction q with
  | nil => simp [insert_by_priority]
  | cons mid rest ih =>
      unfold insert_by_priority
      cases dlookup msgs mid with
      | none =>
          dsimp only
          simp only [List.mem_cons, ih]
          tauto
      | some existing =>
          dsimp only
          by_cases hp : m.priority > existing.priority
          · rw [if_pos hp]
            simp [List.mem_cons]
          · rw [if_neg hp]
            simp only [List.mem_cons, ih]
            tauto

theorem prioOf_dlookup_some {msgs : List (String × Message)} {k : String}
    {m : Message} (h : dlookup msgs k = some m) : prioOf msgs k = m.priority := by
  unfold prioOf
  rw [h]

theorem ibp_sorted (msgs : List (String × Message)) (m : Message)
    (q : List String) (hq : ∀ mid ∈ q, (dlookup msgs mid).isSome)
    (hs : qSorted msgs q) (hm : dlookup msgs m.message_id = some m) :
    qSorted msgs (insert_by_priority msgs m q) := by
  induction q with
  | nil =>
      unfold insert_by_priority qSorted
      simp
  | cons mid rest ih =>
      have hmid := hq mid (List.mem_cons_self _ _)
      obtain ⟨existing, hex⟩ := Option.isSome_iff_exists.mp hmid
      unfold insert_by_priority
      rw [hex]
      dsimp only
      unfold qSorted at hs
      rw [List.pairwise_cons] at hs
      obtain ⟨hhead, htail⟩ := hs
      by_cases hp : m.priority > existing.priority
      · rw [if_pos hp]
        unfold qSorted
        rw [List.pairwise_cons]
        constructor
        · intro x hx
          rw [prioOf_dlookup_some hm]
          rcases List.mem_cons.mp hx with h | h
          · subst h
            rw [prioOf_dlookup_some hex]
            omega
          · have := hhead x h
            rw [prioOf_dlookup_some hex] at this
            omega
        · rw [List.pairwise_cons]
          exact ⟨hhead, htail⟩
      · rw [if_neg hp]
        unfold qSorted
        rw [List.pairwise_cons]
        constructor
        · intro x hx
          rcases (ibp_mem msgs m rest x).mp hx with h | h
          · subst h
            rw [prioOf_dlookup_some hm, prioOf_dlookup_some hex]
            omega
          · exact hhead x h
        · exact ih (fun mid' h' => hq mid' (List.mem_cons_of_mem _ h')) htail

theorem qSorted_congr_mem {msgs msgs' : List (String × Message)}
    {q : List String} (h : ∀ x ∈ q, prioOf msgs' x = prioOf msgs x)
    (hs : qSorted msgs q) : qSorted msgs' q := by
  unfold qSorted at hs ⊢
  exact List.Pairwise.imp_of_mem
    (fun ha hb hab => by rw [h _ hb, h _ ha]; exact hab) hs

theorem prioOf_dinsert_same (msgs : List (String × Message)) (k : String)
    (m0 m' : Message) (h : dlookup msgs k = some m0)
    (hp : m'.priority = m0.priority) (x : String) :
    prioOf (dinsert msgs k m') x = prioOf msgs x := by
  by_cases hxk : x = k
  · subst hxk
    rw [prioOf_dlookup_some (dlookup_dinsert_self' msgs x m'),
      prioOf_dlookup_some h, hp]
  · unfold prioOf
    rw [dlookup_dinsert_ne _ _ hxk]

theorem QGood_update_msg {st : QNode} {k : String} {m0 m' : Message}
    (h : QGood st) (hl : dlookup st.messages k = some m0)
    (hp : m'.priority = m0.priority) (hid : m'.message_id = m0.message_id) :
    QGood { st with messages := dinsert st.messages k m' } := by
  obtain ⟨hk, hco, hwf⟩ := h
  refine ⟨?_, ?_, ?_⟩
  · intro key hkey
    rw [dinsert_map_fst m' hl] at hkey
    obtain ⟨i, hi, he⟩ := hk key hkey
    exact ⟨i, by rw [dinsert_length m' hl]; exact hi, he⟩
  · intro key m hm
    rcases dlookup_dinsert_cases hm with ⟨hkeq, hmeq⟩ | ⟨hne, hold⟩
    · rw [hmeq, hid, hkeq]
      exact hco k m0 hl
    · exact hco key m hold
  · intro qn q hq
    obtain ⟨hpres, hsort⟩ := hwf qn q hq
    constructor
    · intro mid hmid
      exact dlookup_isSome_of_map_fst (dinsert_map_fst m' hl) mid
        (hpres mid hmid)
    · exact qSorted_congr_mem
        (fun x _ => prioOf_dinsert_same _ _ _ _ hl hp x) hsort

theorem QGood_update_queue {st : QNode} {qn : String} {q' : List String}
    (h : QGood st) (hpres : ∀ mid ∈ q', (dlookup st.messages mid).isSome)
    (hsort : qSorted st.messages q') :
    QGood { st with queues := dinsert st.queues qn q' } := by
  obtain ⟨hk, hco, hwf⟩ := h
  refine ⟨hk, hco, ?_⟩
  intro qn' q hq
  rcases dlookup_dinsert_cases hq with ⟨hkeq, hmeq⟩ | ⟨hne, hold⟩
  · subst hkeq hmeq
    exact ⟨hpres, hsort⟩
  · exact hwf qn' q hold

theorem QGood_create (st : QNode) (qn : String) (h : QGood st) :
    QGood (create_queue st qn).2 := by
  unfold create_queue
  split
  · exact h
  · exact QGood_update_queue h (by intro mid hm; cases hm)
      (by unfold qSorted; exact List.Pairwise.nil)

theorem create_queues_isSome (st : QNode) (qn : String) :
    (dlookup (if (dlookup st.queues qn).isNone then
        (create_queue st qn).2 else st).queues qn).isSome := by
  split
  · next hn =>
      unfold create_queue
      rw [if_neg (by simp_all)]
      simp [dlookup_dinsert_self']
  · next hn =>
      cases hq : dlookup st.queues qn with
      | none => rw [hq] at hn; simp at hn
      | some q => simp

theorem QGood_enqueue (st : QNode) (qn d : String) (p : Int)
    (h : QGood st) : QGood (enqueue st qn d p).2 := by
  unfold enqueue
  set st1 := if (dlookup st.queues qn).isNone then (create_queue st qn).2
    else st with hst1
  have h1 : QGood st1 := by
    rw [hst1]
    split
    · exact QGood_create st qn h
    · exact h
  obtain ⟨hk1, hco1, hwf1⟩ := h1
  set newid := mkId st1.node_id st1.messages.length with hnew
  set msg := mkMessage newid d p with hmsg
  have hfresh : dlookup st1.messages newid = none := mkId_fresh hk1
  set msgs' := dinsert st1.messages newid msg with hmsgs'
  have happend : msgs' = st1.messages ++ [(newid, msg)] := by
    rw [hmsgs', dinsert_of_fresh msg hfresh]
  have hlen : msgs'.length = st1.messages.length + 1 := by
    rw [happend]; simp
  have hlook' : ∀ x, x ≠ newid → dlookup msgs' x = dlookup st1.messages x :=
    fun x hx => dlookup_dinsert_ne _ _ hx
  have hpresent_ne : ∀ x, (dlookup st1.messages x).isSome → x ≠ newid := by
    intro x hx he
    subst he
    rw [hfresh] at hx
    simp at hx
  have hprio' : ∀ x, (dlookup st1.messages x).isSome →
      prioOf msgs' x = prioOf st1.messages x := by
    intro x hx
    unfold prioOf
    rw [hlook' x (hpresent_ne x hx)]
  have hk2 : keysShaped { st1 with messages := msgs' } := by
    intro key hkey
    rw [happend] at hkey
    simp only [List.map_append, List.mem_append] at hkey
    rcases hkey with hold | hnewk
    · obtain ⟨i, hi, he⟩ := hk1 key hold
      exact ⟨i, by simp [hlen]; omega, he⟩
    · simp at hnewk
      exact ⟨st1.messages.length, by simp [hlen], hnewk⟩
  have hco2 : idCoherent { st1 with messages := msgs' } := by
    intro key m hm
    rcases dlookup_dinsert_cases hm with ⟨hkeq, hmeq⟩ | ⟨hne, hold⟩
    · subst hkeq hmeq
      rfl
    · exact hco1 key m hold
  have hsomeq := create_queues_isSome st qn
  rw [← hst1] at hsomeq
  obtain ⟨q0, hq0⟩ := Option.isSome_iff_exists.mp hsomeq
  obtain ⟨hpres0, hsort0⟩ := hwf1 qn q0 hq0
  have hmmsg : dlookup msgs' msg.message_id = some msg := by
    show dlookup msgs' newid = some msg
    rw [hmsgs']
    exact dlookup_dinsert_self' _ _ _
  have hpres0' : ∀ mid ∈ q0, (dlookup msgs' mid).isSome := by
    intro mid hm
    rw [hlook' mid (hpresent_ne mid (hpres0 mid hm))]
    exact hpres0 mid hm
  have hsort0' : qSorted msgs' q0 :=
    qSorted_congr_mem (fun x hx => hprio' x (hpres0 x hx)) hsort0
  have hibp_sorted := ibp_sorted msgs' msg q0 hpres0' hsort0' hmmsg
  have hibp_pres : ∀ mid ∈ insert_by_priority msgs' msg q0,
      (dlookup msgs' mid).isSome := by
    intro mid hm
    rcases (ibp_mem msgs' msg q0 mid).mp hm with he | hq
    · subst he
      rw [hmmsg]
      rfl
    · exact hpres0' mid hq
  have h2 : QGood { st1 with messages := msgs' } := by
    refine ⟨hk2, hco2, ?_⟩
    intro qn' q hq
    obtain ⟨hpres, hsort⟩ := hwf1 qn' q hq
    exact ⟨fun mid hm => by
        rw [hlook' mid (hpresent_ne mid (hpres mid hm))]
        exact hpres mid hm,
      qSorted_congr_mem (fun x hx => hprio' x (hpres x hx)) hsort⟩
  have := @QGood_update_queue { st1 with messages := msgs' } qn
    (insert_by_priority msgs' msg q0) h2
    (by simpa [hq0] using hibp_pres) (by simpa [hq0] using hibp_sorted)
  simpa [hq0] using this

end MsgQueue
end DistSync
namespace DistSync
namespace MsgQueue

theorem QGood_dequeue_go (qn cid : String) :
    ∀ (q : List String) (st : QNode), QGood st →
      (∀ mid ∈ q, (dlookup st.messages mid).isSome) →
      qSorted st.messages q →
      QGood (dequeue_go st qn cid q).2 := by
  intro q
  induction q with
  | nil => intro st h _ _; exact h
  | cons mid rest ih =>
      intro st h hpres hsort
      unfold dequeue_go
      have hrest_pres : ∀ m ∈ rest, (dlookup st.messages m).isSome :=
        fun m hm => hpres m (List.mem_cons_of_mem _ hm)
      have hrest_sort : qSorted st.messages rest := by
        unfold qSorted at hsort ⊢
        exact (List.pairwise_cons.mp hsort).2
      have h1 : QGood { st with queues := dinsert st.queues qn rest } :=
        QGood_update_queue h hrest_pres hrest_sort
      cases hm : dlookup st.messages mid with
      | none =>
          dsimp only
          rw [hm]
          exact ih _ h1 hrest_pres hrest_sort
      | some m =>
          dsimp only
          rw [hm]
          exact QGood_update_msg h1 hm rfl rfl

theorem QGood_dequeue (st : QNode) (qn cid : String) (h : QGood st) :
    QGood (dequeue st qn cid).2 := by
  unfold dequeue
  cases hq : dlookup st.queues qn with
  | none => exact h
  | some q =>
      obtain ⟨hpres, hsort⟩ := h.2.2 qn q hq
      exact QGood_dequeue_go qn cid q st h hpres hsort

theorem QGood_ack (st : QNode) (mid cid : String) (h : QGood st) :
    QGood (acknowledge st mid cid).2 := by
  unfold acknowledge
  cases hm : dlookup st.messages mid with
  | none => exact h
  | some m => exact QGood_update_msg h hm rfl rfl

theorem QGood_nack (st : QNode) (mid qn : String) (h : QGood st) :
    QGood (negative_acknowledge st mid qn).2 := by
  unfold negative_acknowledge
  cases hm : dlookup st.messages mid with
  | none => exact h
  | some m =>
      dsimp only
      by_cases hatt : m.attempts ≥ m.max_attempts
      · rw [if_pos hatt]
        exact QGood_update_msg h hm rfl rfl
      · rw [if_neg hatt]
        have h1 : QGood { st with
            messages := dinsert st.messages mid
              { m with status := MessageStatus.pending } } :=
          QGood_update_msg h hm rfl rfl
        cases hq : dlookup st.queues qn with
        | none => exact h1
        | some q =>
            dsimp only
            obtain ⟨hpres, hsort⟩ := h1.2.2 qn q (by simpa using hq)
            have hm' : dlookup (dinsert st.messages mid
                { m with status := MessageStatus.pending })
                ({ m with status := MessageStatus.pending } : Message).message_id
                = some { m with status := MessageStatus.pending } := by
              have hid : ({ m with status := MessageStatus.pending } :
                  Message).message_id = mid := h.2.1 mid m hm
              rw [hid]
              exact dlookup_dinsert_self' _ _ _
            exact QGood_update_queue h1
              (fun x hx => by
                rcases (ibp_mem _ _ q x).mp hx with he | hqx
                · subst he
                  rw [hm']
                  rfl
                · exact hpres x hqx)
              (ibp_sorted _ _ q hpres hsort hm')

theorem QGood_applyOp (st : QNode) (op : QOp) (h : QGood st) :
    QGood (applyOp st op) := by
  cases op with
  | create qn => exact QGood_create st qn h
  | enq qn d p => exact QGood_enqueue st qn d p h
  | deq qn cid => exact QGood_dequeue st qn cid h
  | ack mid cid => exact QGood_ack st mid cid h
  | nack mid qn => exact QGood_nack st mid qn h

theorem QGood_runOps (ops : List QOp) :
    ∀ st : QNode, QGood st → QGood (runOps st ops) := by
  induction ops with
  | nil => intro st h; exact h
  | cons op rest ih =>
      intro st h
      exact ih _ (QGood_applyOp st op h)

theorem QGood_init (nid : String) : QGood (initNode nid) := by
  refine ⟨?_, ?_, ?_⟩
  · intro k hk
    simp [initNode] at hk
  · intro k m hm
    simp [initNode, dlookup] at hm
  · intro qn q hq
    simp [initNode, dlookup] at hq

end MsgQueue
end DistSync
namespace DistSync
namespace MsgQueue

theorem dead_update_other {st : QNode} {mid k : String} {m' : Message}
    (hd : deadId st mid) (hne : k ≠ mid) :
    deadId { st with messages := dinsert st.messages k m' } mid := by
  obtain ⟨⟨m, hm, hatt⟩, hq⟩ := hd
  exact ⟨⟨m, by rw [dlookup_dinsert_ne _ _ (Ne.symm hne)]; exact hm, hatt⟩, hq⟩

theorem dead_mem_keys {st : QNode} {mid : String} (hd : deadId st mid) :
    mid ∈ st.messages.map Prod.fst := by
  obtain ⟨⟨m, hm, _⟩, _⟩ := hd
  exact List.mem_map.mpr ⟨_, dlookup_mem' hm, rfl⟩

theorem dead_create (st : QNode) (qn mid : String) (hd : deadId st mid) :
    deadId (create_queue st qn).2 mid := by
  obtain ⟨hmsg, hq⟩ := hd
  unfold create_queue
  split
  · exact ⟨hmsg, hq⟩
  · refine ⟨hmsg, ?_⟩
    intro qn' q' hq'
    rcases dlookup_dinsert_cases hq' with ⟨_, hqeq⟩ | ⟨_, hold⟩
    · subst hqeq
      simp
    · exact hq qn' q' hold

theorem dead_enqueue (st : QNode) (qn d : String) (p : Int) (mid : String)
    (hg : QGood st) (hd : deadId st mid) :
    deadId (enqueue st qn d p).2 mid := by
  unfold enqueue
  set st1 := if (dlookup st.queues qn).isNone then (create_queue st qn).2
    else st with hst1
  have h1 : QGood st1 := by
    rw [hst1]; split
    · exact QGood_create st qn hg
    · exact hg
  have hd1 : deadId st1 mid := by
    rw [hst1]; split
    · exact dead_create st qn mid hd
    · exact hd
  set newid := mkId st1.node_id st1.messages.length with hnew
  have hfresh : dlookup st1.messages newid = none := mkId_fresh h1.1
  have hne : newid ≠ mid := by
    intro he
    obtain ⟨⟨m, hm, _⟩, _⟩ := hd1
    rw [he] at hfresh
    rw [hfresh] at hm
    exact Option.noConfusion hm
  set msg := mkMessage newid d p with hmsg
  set msgs' := dinsert st1.messages newid msg with hmsgs'
  obtain ⟨⟨m, hm, hatt⟩, hqd⟩ := hd1
  have hmsg' : dlookup msgs' mid = some m := by
    rw [hmsgs', dlookup_dinsert_ne _ _ (Ne.symm hne)]
    exact hm
  refine ⟨⟨m, hmsg', hatt⟩, ?_⟩
  intro qn' q' hq'
  rcases dlookup_dinsert_cases hq' with ⟨_, hqeq⟩ | ⟨_, hold⟩
  · subst hqeq
    intro hmem
    rcases (ibp_mem _ _ _ mid).mp hmem with he | hq0
    · have hmn : mid = newid := by rw [he]; rfl
      exact hne hmn.symm
    · cases hq0c : dlookup st1.queues qn with
      | none => rw [hq0c] at hq0; simp at hq0
      | some q0 =>
          rw [hq0c] at hq0
          exact hqd qn q0 hq0c (by simpa using hq0)
  · exact hqd qn' q' hold

theorem dead_dequeue_go (qn cid : String) :
    ∀ (q : List String) (st : QNode) (mid : String), deadId st mid →
      mid ∉ q →
      deadId (dequeue_go st qn cid q).2 mid := by
  intro q
  induction q with
  | nil => intro st mid hd _; exact hd
  | cons x rest ih =>
      intro st mid hd hnot
      have hxne : x ≠ mid := fun e => hnot (by rw [e]; exact List.mem_cons_self _ _)
      have hrest : mid ∉ rest := fun h => hnot (List.mem_cons_of_mem _ h)
      obtain ⟨hmsg, hq⟩ := hd
      have h1 : deadId { st with queues := dinsert st.queues qn rest } mid := by
        refine ⟨hmsg, ?_⟩
        intro qn' q' hq'
        rcases dlookup_dinsert_cases hq' with ⟨_, hqeq⟩ | ⟨_, hold⟩
        · subst hqeq; exact hrest
        · exact hq qn' q' hold
      unfold dequeue_go
      cases hm : dlookup st.messages x with
      | none =>
          dsimp only
          rw [hm]
          exact ih _ mid h1 hrest
      | some m =>
          dsimp only
          rw [hm]
          exact dead_update_other h1 hxne

theorem dead_dequeue (st : QNode) (qn cid mid : String)
    (hd : deadId st mid) : deadId (dequeue st qn cid).2 mid := by
  unfold dequeue
  cases hq : dlookup st.queues qn with
  | none => exact hd
  | some q => exact dead_dequeue_go qn cid q st mid hd (hd.2 qn q hq)

theorem dead_ack (st : QNode) (mid' cid mid : String) (hd : deadId st mid) :
    deadId (acknowledge st mid' cid).2 mid := by
  unfold acknowledge
  cases hm : dlookup st.messages mid' with
  | none => exact hd
  | some m =>
      dsimp only
      by_cases he : mid' = mid
      · subst he
        obtain ⟨⟨m0, hm0, hatt⟩, hq⟩ := hd
        rw [hm0] at hm
        injection hm with hm
        subst hm
        exact ⟨⟨_, dlookup_dinsert_self' _ _ _, hatt⟩, hq⟩
      · exact dead_update_other hd he

theorem dead_nack (st : QNode) (mid' qn mid : String) (hg : QGood st)
    (hd : deadId st mid) : deadId (negative_acknowledge st mid' qn).2 mid := by
  unfold negative_acknowledge
  cases hm : dlookup st.messages mid' with
  | none => exact hd
  | some m =>
      dsimp only
      by_cases hatt : m.attempts ≥ m.max_attempts
      · rw [if_pos hatt]
        by_cases he : mid' = mid
        · subst he
          obtain ⟨⟨m0, hm0, hatt0⟩, hq⟩ := hd
          rw [hm0] at hm
          injection hm with hm
          subst hm
          exact ⟨⟨_, dlookup_dinsert_self' _ _ _, hatt0⟩, hq⟩
        · exact dead_update_other hd he
      · rw [if_neg hatt]
        have he : mid' ≠ mid := by
          intro h
          subst h
          obtain ⟨⟨m0, hm0, hatt0⟩, _⟩ := hd
          rw [hm0] at hm
          injection hm with hm
          subst hm
          omega
        have h1 : deadId { st with
            messages := dinsert st.messages mid'
              { m with status := MessageStatus.pending } } mid :=
          dead_update_other hd he
        cases hq : dlookup st.queues qn with
        | none => exact h1
        | some q =>
            dsimp only
            obtain ⟨hmsg1, hq1⟩ := h1
            refine ⟨hmsg1, ?_⟩
            intro qn' q' hq'
            rcases dlookup_dinsert_cases hq' with ⟨_, hqeq⟩ | ⟨_, hold⟩
            · subst hqeq
              intro hmem
              rcases (ibp_mem _ _ _ mid).mp hmem with hid | hqx
              · have : ({ m with status := MessageStatus.pending } :
                    Message).message_id = mid' := hg.2.1 mid' m hm
                rw [this] at hid
                exact he hid.symm
              · exact hq1 qn q (by simpa using hq) hqx
            · exact hq1 qn' q' hold

theorem dead_applyOp (st : QNode) (op : QOp) (mid : String) (hg : QGood st)
    (hd : deadId st mid) : deadId (applyOp st op) mid := by
  cases op with
  | create qn => exact dead_create st qn mid hd
  | enq qn d p => exact dead_enqueue st qn d p mid hg hd
  | deq qn cid => exact dead_dequeue st qn cid mid hd
  | ack mid' cid => exact dead_ack st mid' cid mid hd
  | nack mid' qn => exact dead_nack st mid' qn mid hg hd

theorem dead_runOps (ops : List QOp) :
    ∀ (st : QNode) (mid : String), QGood st → deadId st mid →
      deadId (runOps st ops) mid := by
  induction ops with
  | nil => intro st mid _ hd; exact hd
  | cons op rest ih =>
      intro st mid hg hd
      exact ih _ mid (QGood_applyOp st op hg) (dead_applyOp st op mid hg hd)

theorem dequeue_go_not_dead (qn cid : String) :
    ∀ (q : List String) (st : QNode) (mid : String) (mm : Message),
      idCoherent st → mid ∉ q →
      (dequeue_go st qn cid q).1.message = some mm →
      mm.message_id ≠ mid := by
  intro q
  induction q with
  | nil =>
      intro st mid mm _ _ hres
      simp [dequeue_go] at hres
  | cons x rest ih =>
      intro st mid mm hco hnot hres
      have hxne : x ≠ mid := fun e => hnot (by rw [e]; exact List.mem_cons_self _ _)
      have hrest : mid ∉ rest := fun h => hnot (List.mem_cons_of_mem _ h)
      unfold dequeue_go at hres
      dsimp only at hres
      cases hm : dlookup st.messages x with
      | none =>
          rw [hm] at hres
          dsimp only at hres
          exact ih { st with queues := dinsert st.queues qn rest } mid mm
            hco hrest hres
      | some m =>
          rw [hm] at hres
          dsimp only at hres
          simp only [Option.some.injEq] at hres
          rw [← hres]
          show m.message_id ≠ mid
          rw [hco x m hm]
          exact hxne

theorem dequeue_not_dead (st : QNode) (qn cid mid : String) (mm : Message)
    (hco : idCoherent st) (hd : deadId st mid)
    (hres : (dequeue st qn cid).1.message = some mm) :
    mm.message_id ≠ mid := by
  unfold dequeue at hres
  cases hq : dlookup st.queues qn with
  | none =>
      rw [hq] at hres
      simp at hres
  | some q =>
      rw [hq] at hres
      exact dequeue_go_not_dead qn cid q st mid mm hco (hd.2 qn q hq) hres

end MsgQueue
end DistSync
namespace DistSync
namespace MsgQueue

theorem dequeue_max_of_good (st : QNode) (qn cid : String) (mm : Message)
    (hg : QGood st) (hres : (dequeue st qn cid).1.message = some mm) :
    ∀ x ∈ (dlookup (dequeue st qn cid).2.queues qn).getD [],
      prioOf (dequeue st qn cid).2.messages x ≤ mm.priority := by
  cases hq : dlookup st.queues qn with
  | none => simp [dequeue, hq] at hres
  | some q =>
      simp only [dequeue, hq] at hres ⊢
      obtain ⟨hpres, hsort⟩ := hg.2.2 qn q hq
      cases q with
      | nil => simp [dequeue_go] at hres
      | cons mid rest =>
          obtain ⟨m, hm⟩ := Option.isSome_iff_exists.mp
            (hpres mid (List.mem_cons_self _ _))
          simp only [dequeue_go, hm, Option.some.injEq] at hres ⊢
          intro x hx
          rw [dlookup_dinsert_self'] at hx
          simp only [Option.getD_some] at hx
          have hhead := (List.pairwise_cons.mp hsort).1 x hx
          rw [prioOf_dlookup_some hm] at hhead
          rw [prioOf_dinsert_same st.messages mid m
            { message_id := m.message_id, data := m.data,
              priority := m.priority, status := MessageStatus.processing,
              attempts := m.attempts + 1, max_attempts := m.max_attempts,
              delivered_to := setAdd m.delivered_to cid } hm rfl x]
          rw [← hres]
          exact hhead

end MsgQueue

open MsgQueue in
/-- C4: dequeue delivers in priority-descending order, FIFO within a
priority: the literal 1/5/3 scenario returns high, medium, low; a
same-priority scenario preserves enqueue order; and in any reachable state,
a dequeued message's priority is at least that of every message still in
that queue. -/
theorem c4_priority_order :
    ((dequeue (runOps (initNode "n1")
        [QOp.enq "Q" "low" 1, QOp.enq "Q" "high" 5, QOp.enq "Q" "medium" 3])
        "Q" "c1").1.message.map Message.data = some "high"
      ∧ (dequeue (dequeue (runOps (initNode "n1")
          [QOp.enq "Q" "low" 1, QOp.enq "Q" "high" 5, QOp.enq "Q" "medium" 3])
          "Q" "c1").2 "Q" "c1").1.message.map Message.data = some "medium"
      ∧ (dequeue (dequeue (dequeue (runOps (initNode "n1")
          [QOp.enq "Q" "low" 1, QOp.enq "Q" "high" 5, QOp.enq "Q" "medium" 3])
          "Q" "c1").2 "Q" "c1").2 "Q" "c1").1.message.map Message.data
          = some "low")
    ∧ ((dequeue (runOps (initNode "n1")
        [QOp.enq "P" "a" 2, QOp.enq "P" "b" 2, QOp.enq "P" "c" 5,
         QOp.enq "P" "d" 2]) "P" "c1").1.message.map Message.data = some "c"
      ∧ (dequeue (dequeue (runOps (initNode "n1")
          [QOp.enq "P" "a" 2, QOp.enq "P" "b" 2, QOp.enq "P" "c" 5,
           QOp.enq "P" "d" 2]) "P" "c1").2 "P" "c1").1.message.map
            Message.data = some "a"
      ∧ (dequeue (dequeue (dequeue (runOps (initNode "n1")
          [QOp.enq "P" "a" 2, QOp.enq "P" "b" 2, QOp.enq "P" "c" 5,
           QOp.enq "P" "d" 2]) "P" "c1").2 "P" "c1").2 "P" "c1").1.message.map
            Message.data = some "b")
    ∧ (∀ (nid : String) (ops : List QOp) (qn cid : String) (mm : Message),
        (dequeue (runOps (initNode nid) ops) qn cid).1.message = some mm →
        ∀ x ∈ (dlookup (dequeue (runOps (initNode nid) ops) qn cid).2.queues
            qn).getD [],
          prioOf (dequeue (runOps (initNode nid) ops) qn cid).2.messages x
            ≤ mm.priority) := by
  refine ⟨⟨?_, ?_, ?_⟩, ⟨?_, ?_, ?_⟩, ?_⟩
  · decide
  · decide
  · decide
  · decide
  · decide
  · decide
  · intro nid ops qn cid mm hres x hx
    exact dequeue_max_of_good (runOps (initNode nid) ops) qn cid mm
      (QGood_runOps ops _ (QGood_init nid)) hres x hx

open MsgQueue in
/-- C4 (witness): enqueuing priorities 1 then 2, the dequeued message has
priority 2 and the message left behind has priority at most 2. -/
theorem c4_priority_order_witness :
    prioOf (dequeue (runOps (initNode "n1")
        [QOp.enq "Q" "a" 1, QOp.enq "Q" "b" 2]) "Q" "c").2.messages
      (mkId "n1" 0) ≤ 2 := by
  have h := c4_priority_order.2.2 "n1" [QOp.enq "Q" "a" 1, QOp.enq "Q" "b" 2]
    "Q" "c"
    { message_id := mkId "n1" 1, data := "b", priority := 2,
      status := MessageStatus.processing, attempts := 1, max_attempts := 3,
      delivered_to := ["c"] }
    (by decide) (mkId "n1" 0) (by decide)
  exact h

end DistSync
namespace DistSync

open MsgQueue in
/-- C6 (counterexample): nacking a message three times while it is still
queued duplicates it; after three dequeues its attempts reach the maximum
and a further nack sets status FAILED without re-inserting — yet one stale
copy is still queued, so the next dequeue returns the FAILED message,
refuting "further dequeues never return it". -/
theorem c6_nack_cex :
    ((negative_acknowledge (runOps (initNode "n1")
        [QOp.enq "Q" "d" 0, QOp.nack (mkId "n1" 0) "Q",
         QOp.nack (mkId "n1" 0) "Q", QOp.nack (mkId "n1" 0) "Q",
         QOp.deq "Q" "c", QOp.deq "Q" "c", QOp.deq "Q" "c"])
        (mkId "n1" 0) "Q").1.status = "failed")
    ∧ ((dlookup (runOps (initNode "n1")
        [QOp.enq "Q" "d" 0, QOp.nack (mkId "n1" 0) "Q",
         QOp.nack (mkId "n1" 0) "Q", QOp.nack (mkId "n1" 0) "Q",
         QOp.deq "Q" "c", QOp.deq "Q" "c", QOp.deq "Q" "c",
         QOp.nack (mkId "n1" 0) "Q"]).messages (mkId "n1" 0)).map
          Message.status = some MessageStatus.failed)
    ∧ ((dequeue (runOps (initNode "n1")
        [QOp.enq "Q" "d" 0, QOp.nack (mkId "n1" 0) "Q",
         QOp.nack (mkId "n1" 0) "Q", QOp.nack (mkId "n1" 0) "Q",
         QOp.deq "Q" "c", QOp.deq "Q" "c", QOp.deq "Q" "c",
         QOp.nack (mkId "n1" 0) "Q"]) "Q" "c").1.message.map
          Message.message_id = some (mkId "n1" 0)) := by
  refine ⟨?_, ?_, ?_⟩ <;> decide

open MsgQueue in
/-- C6 (amended): a nack on an existing message with exhausted attempts
sets status FAILED and leaves every queue untouched; if moreover the message
sits in no queue at that moment, no later dequeue — after any further
operation sequence — ever returns it.  A nack on a message with remaining
attempts in a reachable state sets status back to PENDING via re-insertion
at the priority-appropriate position: the reply is "requeued", the stored
message's status is PENDING afterwards, the message is in the queue again,
and the queue stays sorted by priority. -/
theorem c6_nack_dead_letter :
    (∀ (st : QNode) (mid qn : String) (m : Message),
      dlookup st.messages mid = some m → m.max_attempts ≤ m.attempts →
      negative_acknowledge st mid qn =
        ({ status := "failed", message_id := some mid,
           reason := some "Max attempts reached" },
         { st with
            messages := dinsert st.messages mid
              { m with status := MessageStatus.failed } }))
    ∧ (∀ (nid : String) (ops : List QOp) (mid qn : String) (m : Message),
        dlookup (runOps (initNode nid) ops).messages mid = some m →
        m.max_attempts ≤ m.attempts →
        (∀ qn' q', dlookup (runOps (initNode nid) ops).queues qn' = some q' →
          mid ∉ q') →
        ∀ (ops2 : List QOp) (qn2 cid2 : String) (mm : Message),
          (dequeue (runOps (negative_acknowledge (runOps (initNode nid) ops)
              mid qn).2 ops2) qn2 cid2).1.message = some mm →
          mm.message_id ≠ mid)
    ∧ (∀ (nid : String) (ops : List QOp) (mid qn : String) (m : Message)
        (q : List String),
        dlookup (runOps (initNode nid) ops).messages mid = some m →
        m.attempts < m.max_attempts →
        dlookup (runOps (initNode nid) ops).queues qn = some q →
        (negative_acknowledge (runOps (initNode nid) ops) mid qn).1.status
            = "requeued"
          ∧ dlookup (negative_acknowledge (runOps (initNode nid) ops)
              mid qn).2.messages mid
            = some { m with status := MessageStatus.pending }
          ∧ mid ∈ (dlookup (negative_acknowledge (runOps (initNode nid) ops)
              mid qn).2.queues qn).getD []
          ∧ qSorted (negative_acknowledge (runOps (initNode nid) ops)
              mid qn).2.messages
            ((dlookup (negative_acknowledge (runOps (initNode nid) ops)
              mid qn).2.queues qn).getD [])) := by
  refine ⟨?_, ?_, ?_⟩
  · intro st mid qn m hm hatt
    unfold negative_acknowledge
    rw [hm]
    dsimp only
    rw [if_pos (by omega)]
  · intro nid ops mid qn m hm hatt hnoq ops2 qn2 cid2 mm hres
    have hg : QGood (runOps (initNode nid) ops) :=
      QGood_runOps ops _ (QGood_init nid)
    set s := runOps (initNode nid) ops with hs
    have hnack : (negative_acknowledge s mid qn).2 =
        { s with
          messages := dinsert s.messages mid
            { m with status := MessageStatus.failed } } := by
      unfold negative_acknowledge
      rw [hm]
      dsimp only
      rw [if_pos (by omega)]
    have hg1 : QGood (negative_acknowledge s mid qn).2 :=
      QGood_nack s mid qn hg
    have hd1 : deadId (negative_acknowledge s mid qn).2 mid := by
      rw [hnack]
      refine ⟨⟨{ m with status := MessageStatus.failed },
        dlookup_dinsert_self' _ _ _, hatt⟩, ?_⟩
      intro qn' q' hq'
      exact hnoq qn' q' hq'
    have hg2 : QGood (runOps (negative_acknowledge s mid qn).2 ops2) :=
      QGood_runOps ops2 _ hg1
    have hd2 : deadId (runOps (negative_acknowledge s mid qn).2 ops2) mid :=
      dead_runOps ops2 _ mid hg1 hd1
    exact dequeue_not_dead _ qn2 cid2 mid mm hg2.2.1 hd2 hres
  · intro nid ops mid qn m q hm hatt hq
    have hg : QGood (runOps (initNode nid) ops) :=
      QGood_runOps ops _ (QGood_init nid)
    set s := runOps (initNode nid) ops with hs
    have hmid_id : m.message_id = mid := hg.2.1 mid m hm
    have hnack : negative_acknowledge s mid qn =
        ({ status := "requeued", message_id := some mid,
           queue_name := some qn, attempts := some m.attempts },
         { s with
            messages := dinsert s.messages mid
              { m with status := MessageStatus.pending },
            queues := dinsert s.queues qn
              (insert_by_priority
                (dinsert s.messages mid
                  { m with status := MessageStatus.pending })
                { m with status := MessageStatus.pending } q) }) := by
      unfold negative_acknowledge
      rw [hm]
      dsimp only
      rw [if_neg (by omega)]
      simp only [hq]
    have hgood1 : QGood (negative_acknowledge s mid qn).2 :=
      QGood_nack s mid qn hg
    refine ⟨by rw [hnack], ?_, ?_, ?_⟩
    · rw [hnack]
      exact dlookup_dinsert_self' _ _ _
    · rw [hnack]
      simp only [dlookup_dinsert_self', Option.getD_some]
      exact (ibp_mem _ _ _ mid).mpr (Or.inl (by rw [hmid_id]))
    · obtain ⟨q', hq'⟩ : ∃ q', dlookup (negative_acknowledge s mid qn).2.queues
          qn = some q' := by
        rw [hnack]
        exact ⟨_, dlookup_dinsert_self' _ _ _⟩
      rw [hq']
      exact (hgood1.2.2 qn q' hq').2

open MsgQueue in
/-- C6 (witness): after one enqueue and three dequeue/nack rounds the
message has exhausted its attempts outside any queue; the amended theorem
then yields the FAILED reply shape and that a subsequent dequeue on the
empty queue returns no message with its id. -/
theorem c6_nack_dead_letter_witness :
    (negative_acknowledge (runOps (initNode "n1")
        [QOp.enq "Q" "d" 0, QOp.deq "Q" "c", QOp.nack (mkId "n1" 0) "Q",
         QOp.deq "Q" "c", QOp.nack (mkId "n1" 0) "Q", QOp.deq "Q" "c"])
        (mkId "n1" 0) "Q").1.status = "failed" := by
  have h := c6_nack_dead_letter.1 (runOps (initNode "n1")
      [QOp.enq "Q" "d" 0, QOp.deq "Q" "c", QOp.nack (mkId "n1" 0) "Q",
       QOp.deq "Q" "c", QOp.nack (mkId "n1" 0) "Q", QOp.deq "Q" "c"])
      (mkId "n1" 0) "Q"
      { message_id := mkId "n1" 0, data := "d", priority := 0,
        status := MessageStatus.processing, attempts := 3, max_attempts := 3,
        delivered_to := ["c"] }
      (by decide) (by decide)
  rw [h]

open MsgQueue in
/-- C7: the invariant "a DELIVERED message is not in any queue" fails on the
code: acknowledging a message after a nack has re-inserted it leaves the
message in the queue with status DELIVERED (and the claim's own scenario is
the failing input). -/
theorem c7_delivered_in_queue :
    ((dlookup (runOps (initNode "n1")
        [QOp.create "Q", QOp.enq "Q" "d" 0, QOp.deq "Q" "c",
         QOp.nack (mkId "n1" 0) "Q", QOp.ack (mkId "n1" 0) "c"]).messages
        (mkId "n1" 0)).map Message.status = some MessageStatus.delivered)
    ∧ (mkId "n1" 0) ∈ (dlookup (runOps (initNode "n1")
        [QOp.create "Q", QOp.enq "Q" "d" 0, QOp.deq "Q" "c",
         QOp.nack (mkId "n1" 0) "Q", QOp.ack (mkId "n1" 0) "c"]).queues
        "Q").getD [] := by
  refine ⟨?_, ?_⟩ <;> decide

end DistSync

namespace DistSync

namespace Cache

theorem dlookup_dinsert_self2 {β : Type} (l : List (String × β)) (k : String)
    (v : β) : dlookup (dinsert l k v) k = some v := by
  induction l with
  | nil => simp [dinsert, dlookup]
  | cons p rest ih =>
      obtain ⟨a, b⟩ := p
      by_cases hak : a = k
      · subst hak; simp [dinsert, dlookup]
      · simp [dinsert, dlookup, hak, ih]

theorem dinsert_of_fresh2 {β : Type} {l : List (String × β)} {k : String}
    (v : β) (h : dlookup l k = none) : dinsert l k v = l ++ [(k, v)] := by
  induction l with
  | nil => rfl
  | cons p rest ih =>
      obtain ⟨a, b⟩ := p
      by_cases hak : a = k
      · subst hak; simp [dlookup] at h
      · simp [dlookup, hak] at h
        simp [dinsert, hak, ih h]

theorem dlookup_append_fresh {β : Type} {l : List (String × β)} {k : String}
    (v : β) (h : dlookup l k = none) : dlookup (l ++ [(k, v)]) k = some v := by
  induction l with
  | nil => simp [dlookup]
  | cons p rest ih =>
      obtain ⟨a, b⟩ := p
      by_cases hak : a = k
      · subst hak; simp [dlookup] at h
      · simp [dlookup, hak] at h ⊢
        exact ih h

theorem lru_put_fresh_lookup (c : LRUCache) (key : String) (e : CacheEntry)
    (hfresh : dlookup c.cache key = none) (hcap : 1 ≤ c.capacity) :
    dlookup (c.put key e).2.cache key = some e := by
  unfold LRUCache.put
  have hin : (if (dlookup c.cache key).isSome = true then
      { capacity := c.capacity, cache := moveToEnd c.cache key } else c) = c :=
    if_neg (by simp [hfresh])
  dsimp only
  rw [hin, dinsert_of_fresh2 e hfresh]
  by_cases hover : (c.cache ++ [(key, e)]).length > c.capacity
  · rw [if_pos hover]
    cases hc : c.cache with
    | nil =>
        rw [hc] at hover
        simp at hover
        omega
    | cons p ps =>
        rw [hc] at hover
        obtain ⟨a, b⟩ := p
        have hps : dlookup ps key = none := by
          by_cases hak : a = key
          · rw [hc, hak] at hfresh; simp [dlookup] at hfresh
          · rw [hc] at hfresh; simpa [dlookup, hak] using hfresh
        exact dlookup_append_fresh e hps
  · rw [if_neg hover]
    exact dlookup_append_fresh e hfresh
/-- C5 (counterexample): with directory `\x7b"k": \x7b"n2"}}` — a previous
directory entry naming a holder other than the local node — a put on node
`"n1"` installs and reports EXCLUSIVE (the code requires `len(holders) > 1`,
not "holders other than self"), and the same fresh-key put replies
`version = 0`, not the claimed 1 (the version is bumped only when the key
was already cached locally). -/
theorem c5_put_cex :
    (put { node_id := "n1", cache := { capacity := 2, cache := [] },
           cache_directory := [("k", ["n2"])], invalidations := 0 }
       "k" "v" "n1").1.state = some CacheState.exclusive
    ∧ (put { node_id := "n1", cache := { capacity := 2, cache := [] },
             cache_directory := [("k", ["n2"])], invalidations := 0 }
         "k" "v" "n1").1.version = some 0 := by
  constructor <;> rfl

/-- C5 (amended): for every `put(key, value, requester)` on a node whose
cache has capacity at least 1, the reply is `status = "success"` with the
put key; the installed and reported state is MODIFIED exactly when the
previous directory entry for the key lists more than one holder, else
EXCLUSIVE; the reported and installed version is the previous local entry's
version + 1 when the key was cached locally and 0 for a fresh key; the
directory entry for the key becomes exactly `\x7bself}`; and the entry is
installed locally with the put value. -/
theorem c5_put_amended (st : CacheNode) (key value req : String)
    (hcap : 1 ≤ st.cache.capacity) :
    (put st key value req).1.status = "success"
    ∧ (put st key value req).1.key = some key
    ∧ (put st key value req).1.state =
        some (if (match dlookup st.cache_directory key with
                  | some holders => decide (holders.length > 1)
                  | none => false) = true
              then CacheState.modified else CacheState.exclusive)
    ∧ (put st key value req).1.version =
        some (match dlookup st.cache.cache key with
              | some e => e.version + 1
              | none => 0)
    ∧ dlookup (put st key value req).2.cache_directory key
        = some [st.node_id]
    ∧ ∃ e, dlookup (put st key value req).2.cache.cache key = some e
        ∧ e.value = value
        ∧ e.state = (if (match dlookup st.cache_directory key with
                         | some holders => decide (holders.length > 1)
                         | none => false) = true
                     then CacheState.modified else CacheState.exclusive)
        ∧ e.version = (match dlookup st.cache.cache key with
                       | some e0 => e0.version + 1
                       | none => 0) := by
  cases hd : dlookup st.cache_directory key with
  | none =>
      cases hcache : dlookup st.cache.cache key with
      | none =>
          simp only [put, LRUCache.get, invalidate_peers, hd, hcache,
            if_neg Bool.false_ne_true]
          exact ⟨trivial, trivial, trivial, rfl, dlookup_dinsert_self2 _ _ _,
            ⟨_, lru_put_fresh_lookup st.cache key _ hcache hcap, rfl, rfl, rfl⟩⟩
      | some entry =>
          simp only [put, LRUCache.get, invalidate_peers, hd, hcache,
            if_neg Bool.false_ne_true]
          exact ⟨trivial, trivial, trivial, rfl, dlookup_dinsert_self2 _ _ _,
            ⟨_, dlookup_dinsert_self2 _ _ _, rfl, rfl, rfl⟩⟩
  | some holders =>
      by_cases hlen : holders.length > 1
      · cases hcache : dlookup st.cache.cache key with
        | none =>
            simp only [put, LRUCache.get, invalidate_peers, hd, hcache,
              decide_eq_true hlen, if_pos trivial]
            exact ⟨trivial, trivial, trivial, rfl, dlookup_dinsert_self2 _ _ _,
              ⟨_, lru_put_fresh_lookup st.cache key _ hcache hcap, rfl, rfl, rfl⟩⟩
        | some entry =>
            simp only [put, LRUCache.get, invalidate_peers, hd, hcache,
              decide_eq_true hlen, if_pos trivial]
            exact ⟨trivial, trivial, trivial, rfl, dlookup_dinsert_self2 _ _ _,
              ⟨_, dlookup_dinsert_self2 _ _ _, rfl, rfl, rfl⟩⟩
      · cases hcache : dlookup st.cache.cache key with
        | none =>
            simp only [put, LRUCache.get, invalidate_peers, hd, hcache,
              decide_eq_false hlen, if_neg Bool.false_ne_true]
            exact ⟨trivial, trivial, trivial, rfl, dlookup_dinsert_self2 _ _ _,
              ⟨_, lru_put_fresh_lookup st.cache key _ hcache hcap, rfl, rfl, rfl⟩⟩
        | some entry =>
            simp only [put, LRUCache.get, invalidate_peers, hd, hcache,
              decide_eq_false hlen, if_neg Bool.false_ne_true]
            exact ⟨trivial, trivial, trivial, rfl, dlookup_dinsert_self2 _ _ _,
              ⟨_, dlookup_dinsert_self2 _ _ _, rfl, rfl, rfl⟩⟩

/-- C5 (witness): the amended characterization applied to a concrete empty
node of capacity 2. -/
theorem c5_put_amended_witness :
    1 ≤ ({ node_id := "n1", cache := { capacity := 2, cache := [] }, cache_directory := [], invalidations := 0 } : CacheNode).cache.capacity
    ∧ (put ({ node_id := "n1", cache := { capacity := 2, cache := [] }, cache_directory := [], invalidations := 0 } : CacheNode) "k" "v" "r").1.status = "success" :=
  ⟨by decide, (c5_put_amended ({ node_id := "n1", cache := { capacity := 2, cache := [] }, cache_directory := [], invalidations := 0 } : CacheNode) "k" "v" "r" (by decide)).1⟩

end Cache

namespace Ring

theorem dlookup_none_of_fresh {α β : Type} [DecidableEq α]
    {l : List (α × β)} {k : α} (h : k ∉ l.map Prod.fst) :
    dlookup l k = none := by
  induction l with
  | nil => rfl
  | cons p rest ih =>
      simp only [List.map_cons, List.mem_cons] at h
      push_neg at h
      simp only [dlookup]
      rw [if_neg (fun he => h.1 he.symm)]
      exact ih h.2

theorem dinsert_fresh_keys {α β : Type} [DecidableEq α]
    {l : List (α × β)} {k : α} (v : β) (h : k ∉ l.map Prod.fst) :
    dinsert l k v = l ++ [(k, v)] := by
  induction l with
  | nil => rfl
  | cons p rest ih =>
      simp only [List.map_cons, List.mem_cons] at h
      push_neg at h
      simp only [dinsert]
      rw [if_neg (fun he => h.1 he.symm)]
      rw [ih h.2]
      rfl

theorem dremove_of_fresh {α β : Type} [DecidableEq α]
    {l : List (α × β)} {k : α} (h : k ∉ l.map Prod.fst) :
    dremove l k = l := by
  unfold dremove
  refine List.filter_eq_self.mpr ?_
  intro p hp
  simp only [decide_eq_true_eq]
  intro he
  exact h (List.mem_map.mpr ⟨p, hp, he⟩)

theorem dremove_append {α β : Type} [DecidableEq α]
    (l1 l2 : List (α × β)) (k : α) :
    dremove (l1 ++ l2) k = dremove l1 k ++ dremove l2 k := by
  unfold dremove
  rw [List.filter_append]

theorem foldl_dinsert_fresh {α β : Type} [DecidableEq α] (n : β) :
    ∀ (ks : List α) (r : List (α × β)),
      (∀ k ∈ ks, k ∉ r.map Prod.fst) → ks.Nodup →
      ks.foldl (fun r k => dinsert r k n) r = r ++ ks.map (fun k => (k, n))
  | [], r, _, _ => by simp
  | k :: ks, r, hdisj, hnd => by
      simp only [List.foldl_cons, List.map_cons]
      rw [dinsert_fresh_keys n (hdisj k (List.mem_cons_self k ks))]
      rw [foldl_dinsert_fresh n ks (r ++ [(k, n)]) ?_ (List.Nodup.of_cons hnd)]
      · simp
      · intro k' hk'
        simp only [List.map_append, List.mem_append]
        push_neg
        refine ⟨hdisj k' (List.mem_cons_of_mem k hk'), ?_⟩
        simp only [List.map_cons, List.map_nil, List.mem_singleton]
        intro he
        exact (List.nodup_cons.mp hnd).1 (he ▸ hk')

theorem foldl_dremove_split {α β : Type} [DecidableEq α] (n : β) :
    ∀ (ks : List α) (r0 : List (α × β)),
      (∀ k ∈ ks, k ∉ r0.map Prod.fst) → ks.Nodup →
      ks.foldl (fun r k => dremove r k) (r0 ++ ks.map (fun k => (k, n))) = r0
  | [], r0, _, _ => by simp
  | k :: ks, r0, hdisj, hnd => by
      simp only [List.foldl_cons, List.map_cons]
      have h1 : dremove (r0 ++ (k, n) :: ks.map (fun k => (k, n))) k
          = r0 ++ ks.map (fun k => (k, n)) := by
        rw [dremove_append]
        rw [dremove_of_fresh (hdisj k (List.mem_cons_self k ks))]
        have h2 : dremove ((k, n) :: ks.map (fun k => (k, n))) k
            = ks.map (fun k => (k, n)) := by
          unfold dremove
          rw [List.filter_cons_of_neg]
          · refine List.filter_eq_self.mpr ?_
            intro p hp
            simp only [decide_eq_true_eq]
            obtain ⟨k', hk', rfl⟩ := List.mem_map.mp hp
            intro he
            exact (List.nodup_cons.mp hnd).1 (he ▸ hk')
          · simp
        rw [h2]
      rw [h1]
      exact foldl_dremove_split n ks r0
        (fun k' hk' => hdisj k' (List.mem_cons_of_mem k hk'))
        (List.Nodup.of_cons hnd)

theorem mem_setAdd_self (l : List String) (x : String) : x ∈ setAdd l x := by
  unfold setAdd
  split
  · assumption
  · simp

theorem setRemove_setAdd (l : List String) (x : String) (hx : x ∉ l) :
    setRemove (setAdd l x) x = l := by
  unfold setAdd setRemove
  rw [if_neg hx, List.filter_append]
  have h1 : l.filter (fun y => y ≠ x) = l := by
    refine List.filter_eq_self.mpr ?_
    intro y hy
    simp only [decide_eq_true_eq]
    intro he
    exact hx (he ▸ hy)
  rw [h1]
  simp

/-- C9: for every ring state whose `sorted_keys` agrees with its `ring`
(true of every state the class constructs) and every node id `n` not in the
ring, if the hash places `n`'s virtual points at fresh, pairwise-distinct
positions (the claim's "no hash collisions"), then `add_node n` followed by
`remove_node n` restores the state exactly, so `get_node` is unchanged for
every key. -/
theorem c9_add_remove_roundtrip (h : String → Nat) (ch : ConsistentHash) (n : String)
    (hn : n ∉ ch.nodes)
    (hfresh : ∀ i < ch.num_virtual_nodes,
        h (virtualKey n i) ∉ ch.ring.map Prod.fst)
    (hinj : ∀ i < ch.num_virtual_nodes, ∀ j < ch.num_virtual_nodes,
        h (virtualKey n i) = h (virtualKey n j) → i = j)
    (hsk : ch.sorted_keys = sortKeys (ch.ring.map Prod.fst)) :
    remove_node h (add_node h ch n) n = ch
    ∧ ∀ key, get_node h (remove_node h (add_node h ch n) n) key
        = get_node h ch key := by
  obtain ⟨V, r, sk, ns⟩ := ch
  dsimp only at hn hfresh hinj hsk
  have hmain : remove_node h (add_node h ⟨V, r, sk, ns⟩ n) n
      = ⟨V, r, sk, ns⟩ := by
    have hksnd : ((List.range V).map (fun i => h (virtualKey n i))).Nodup := by
      refine List.Nodup.map_on ?_ (List.nodup_range _)
      intro i hi j hj he
      exact hinj i (List.mem_range.mp hi) j (List.mem_range.mp hj) he
    have hksdisj : ∀ k ∈ (List.range V).map (fun i => h (virtualKey n i)),
        k ∉ r.map Prod.fst := by
      intro k hk
      obtain ⟨i, hi, rfl⟩ := List.mem_map.mp hk
      exact hfresh i (List.mem_range.mp hi)
    unfold add_node
    rw [if_neg hn]
    dsimp only
    rw [← List.foldl_map (fun i => h (virtualKey n i))
      (fun r k => dinsert r k n)]
    rw [foldl_dinsert_fresh n _ r hksdisj hksnd]
    unfold remove_node
    rw [if_neg (not_not_intro (mem_setAdd_self ns n))]
    dsimp only
    rw [setRemove_setAdd ns n hn]
    rw [← List.foldl_map (fun i => h (virtualKey n i))
      (fun r k => dremove r k)]
    rw [foldl_dremove_split n _ r hksdisj hksnd]
    rw [← hsk]
  refine ⟨hmain, fun key => by rw [hmain]⟩

end Ring

namespace Phi

theorem sqrtTwoPi_pos : 0 < Real.sqrt (2 * Real.pi) :=
  Real.sqrt_pos.mpr (by positivity)

/-- C8 (amended): after `_update_statistics` on at least 2 samples, `phi`
equals `-log10(exp(-(Δ-µ)²/(2σ²)) / (σ √(2π)))` when the sample standard
deviation `σ = sqrt(variance)` is at least the 1e-4 floor, but returns 0 —
it does NOT clamp — when `σ < 1e-4`; with fewer than 2 samples `phi`
returns 0. -/
theorem c8_phi_amended (st : PhiAccrual) (elapsed : ℝ)
    (h2 : 2 ≤ st.intervals.length) :
    (Real.sqrt (sampleVariance st.intervals) < 0.0001 →
      phi (update_statistics st) elapsed = 0)
    ∧ (0.0001 ≤ Real.sqrt (sampleVariance st.intervals) →
      phi (update_statistics st) elapsed
        = -Real.logb 10 (Real.exp (-((elapsed - sampleMean st.intervals) ^ 2)
            / (2 * sampleVariance st.intervals))
            / (Real.sqrt (sampleVariance st.intervals)
               * Real.sqrt (2 * Real.pi))))
    ∧ (∀ st2 : PhiAccrual, st2.intervals.length < 2 → phi st2 elapsed = 0) := by
  have hnot : ¬ st.intervals.length < 2 := not_lt.mpr h2
  refine ⟨?_, ?_, ?_⟩
  · intro hlt
    unfold update_statistics phi
    rw [if_neg hnot]
    dsimp only
    rw [if_neg hnot, if_pos hlt]
  · intro hge
    unfold update_statistics phi
    rw [if_neg hnot]
    dsimp only
    rw [if_neg hnot, if_neg (not_lt.mpr hge)]
    have hsig : 0 < Real.sqrt (sampleVariance st.intervals) :=
      lt_of_lt_of_le (by norm_num) hge
    have hp : 0 < Real.exp (-((elapsed - sampleMean st.intervals) ^ 2)
        / (2 * sampleVariance st.intervals))
        / (Real.sqrt (sampleVariance st.intervals)
           * Real.sqrt (2 * Real.pi)) :=
      div_pos (Real.exp_pos _) (mul_pos hsig sqrtTwoPi_pos)
    rw [if_pos hp]
  · intro st2 hlt2
    unfold phi
    rw [if_pos hlt2]

/-- C8 (counterexample): with samples `[1, 1]` the sample standard
deviation is 0, so after `_update_statistics` the code's `phi` at elapsed
Δ = 10 returns 0, while the claim's clamped formula is strictly positive
there — a large Δ does not yield a large phi. -/
theorem c8_phi_cex :
    phi (update_statistics
      { intervals := [1, 1], mean := 0, variance := 0, std_deviation := 0 })
      10 = 0
    ∧ 0 < phiClaim
        (sampleMean [1, 1])
        (Real.sqrt (sampleVariance [1, 1])) 10 := by
  have hm : sampleMean [(1 : ℝ), 1] = 1 := by
    unfold sampleMean
    norm_num
  have hv : sampleVariance [(1 : ℝ), 1] = 0 := by
    unfold sampleVariance
    rw [hm]
    norm_num
  constructor
  · unfold update_statistics phi
    norm_num
    rw [hv, Real.sqrt_zero]
    norm_num
  · rw [hm, hv, Real.sqrt_zero]
    unfold phiClaim
    have hmax : max (0 : ℝ) 0.0001 = 0.0001 := by norm_num
    rw [hmax]
    have hE : -(((10 : ℝ) - 1) ^ 2) / (2 * (0.0001 : ℝ) ^ 2) ≤ -10 := by
      norm_num
    have hexp10 : (10000 : ℝ) < Real.exp 10 := by
      have h1 : (2.7182818283 : ℝ) ^ (10 : ℕ) ≤ Real.exp 1 ^ (10 : ℕ) :=
        pow_le_pow_left₀ (by norm_num) (le_of_lt Real.exp_one_gt_d9) 10
      have h2 : (10000 : ℝ) < (2.7182818283 : ℝ) ^ (10 : ℕ) := by norm_num
      calc (10000 : ℝ) < (2.7182818283 : ℝ) ^ (10 : ℕ) := h2
        _ ≤ Real.exp 1 ^ (10 : ℕ) := h1
        _ = Real.exp 10 := by
            rw [← Real.exp_nat_mul]
            norm_num
    have hexpE : Real.exp (-(((10 : ℝ) - 1) ^ 2) / (2 * (0.0001 : ℝ) ^ 2))
        ≤ Real.exp (-10) := Real.exp_le_exp.mpr hE
    have hexpm10 : Real.exp (-10 : ℝ) < 0.0001 := by
      rw [Real.exp_neg]
      rw [inv_lt_iff_one_lt_mul₀ (Real.exp_pos 10)]
      calc (1 : ℝ) = 0.0001 * 10000 := by norm_num
        _ < 0.0001 * Real.exp 10 := by
            exact mul_lt_mul_of_pos_left hexp10 (by norm_num)
    have hden : (0.0001 : ℝ) ≤ 0.0001 * Real.sqrt (2 * Real.pi) := by
      have h1 : (1 : ℝ) ≤ Real.sqrt (2 * Real.pi) := by
        rw [show (1 : ℝ) = Real.sqrt 1 from (Real.sqrt_one).symm]
        exact Real.sqrt_le_sqrt (by nlinarith [Real.pi_gt_three])
      nlinarith
    have hplt : Real.exp (-(((10 : ℝ) - 1) ^ 2) / (2 * (0.0001 : ℝ) ^ 2))
        / ((0.0001 : ℝ) * Real.sqrt (2 * Real.pi)) < 1 := by
      rw [div_lt_one (by positivity)]
      calc Real.exp (-(((10 : ℝ) - 1) ^ 2) / (2 * (0.0001 : ℝ) ^ 2))
          ≤ Real.exp (-10) := hexpE
        _ < 0.0001 := hexpm10
        _ ≤ 0.0001 * Real.sqrt (2 * Real.pi) := hden
    have hppos : 0 < Real.exp (-(((10 : ℝ) - 1) ^ 2) / (2 * (0.0001 : ℝ) ^ 2))
        / ((0.0001 : ℝ) * Real.sqrt (2 * Real.pi)) := by positivity
    have hneg : Real.logb 10 (Real.exp (-(((10 : ℝ) - 1) ^ 2)
        / (2 * (0.0001 : ℝ) ^ 2))
        / ((0.0001 : ℝ) * Real.sqrt (2 * Real.pi))) < 0 :=
      Real.logb_neg (by norm_num) hppos hplt
    linarith

/-- C8 (witness): the amended characterization applied to the concrete
sample list `[1, 3]` (sample variance 1) at elapsed 10. -/
theorem c8_phi_amended_witness :
    2 ≤ ({ intervals := [1, 3], mean := 0, variance := 0, std_deviation := 0 } : PhiAccrual).intervals.length
    ∧ ((Real.sqrt (sampleVariance ({ intervals := [1, 3], mean := 0, variance := 0, std_deviation := 0 } : PhiAccrual).intervals) < 0.0001 →
      phi (update_statistics ({ intervals := [1, 3], mean := 0, variance := 0, std_deviation := 0 } : PhiAccrual)) 10 = 0)
    ∧ (0.0001 ≤ Real.sqrt (sampleVariance ({ intervals := [1, 3], mean := 0, variance := 0, std_deviation := 0 } : PhiAccrual).intervals) →
      phi (update_statistics ({ intervals := [1, 3], mean := 0, variance := 0, std_deviation := 0 } : PhiAccrual)) 10
        = -Real.logb 10 (Real.exp (-((10 - sampleMean ({ intervals := [1, 3], mean := 0, variance := 0, std_deviation := 0 } : PhiAccrual).intervals) ^ 2)
            / (2 * sampleVariance ({ intervals := [1, 3], mean := 0, variance := 0, std_deviation := 0 } : PhiAccrual).intervals))
            / (Real.sqrt (sampleVariance ({ intervals := [1, 3], mean := 0, variance := 0, std_deviation := 0 } : PhiAccrual).intervals)
               * Real.sqrt (2 * Real.pi))))
    ∧ (∀ st2 : PhiAccrual, st2.intervals.length < 2 → phi st2 10 = 0)) :=
  ⟨by norm_num, c8_phi_amended ({ intervals := [1, 3], mean := 0, variance := 0, std_deviation := 0 } : PhiAccrual) 10 (by norm_num)⟩

end Phi

namespace Ring

/-- C9 (witness): a concrete one-virtual-node ring over the character-sum
hash: adding then removing `"b"` restores the ring holding `"a"`. -/
theorem c9_add_remove_roundtrip_witness :
    ("b" ∉ ({ num_virtual_nodes := 1, ring := [(203, "a")], sorted_keys := [203], nodes := ["a"] } : ConsistentHash).nodes
     ∧ (∀ i < ({ num_virtual_nodes := 1, ring := [(203, "a")], sorted_keys := [203], nodes := ["a"] } : ConsistentHash).num_virtual_nodes,
         (fun s => s.data.foldl (fun a c => a + c.toNat) 0) (virtualKey "b" i)
           ∉ ({ num_virtual_nodes := 1, ring := [(203, "a")], sorted_keys := [203], nodes := ["a"] } : ConsistentHash).ring.map Prod.fst)
     ∧ (∀ i < ({ num_virtual_nodes := 1, ring := [(203, "a")], sorted_keys := [203], nodes := ["a"] } : ConsistentHash).num_virtual_nodes,
         ∀ j < ({ num_virtual_nodes := 1, ring := [(203, "a")], sorted_keys := [203], nodes := ["a"] } : ConsistentHash).num_virtual_nodes,
         (fun s => s.data.foldl (fun a c => a + c.toNat) 0) (virtualKey "b" i)
           = (fun s => s.data.foldl (fun a c => a + c.toNat) 0) (virtualKey "b" j) → i = j)
     ∧ ({ num_virtual_nodes := 1, ring := [(203, "a")], sorted_keys := [203], nodes := ["a"] } : ConsistentHash).sorted_keys
         = sortKeys (({ num_virtual_nodes := 1, ring := [(203, "a")], sorted_keys := [203], nodes := ["a"] } : ConsistentHash).ring.map Prod.fst))
    ∧ remove_node (fun s => s.data.foldl (fun a c => a + c.toNat) 0)
        (add_node (fun s => s.data.foldl (fun a c => a + c.toNat) 0) ({ num_virtual_nodes := 1, ring := [(203, "a")], sorted_keys := [203], nodes := ["a"] } : ConsistentHash) "b") "b"
        = ({ num_virtual_nodes := 1, ring := [(203, "a")], sorted_keys := [203], nodes := ["a"] } : ConsistentHash) :=
  ⟨⟨by decide, by decide, by decide, by decide⟩,
   (c9_add_remove_roundtrip (fun s => s.data.foldl (fun a c => a + c.toNat) 0) ({ num_virtual_nodes := 1, ring := [(203, "a")], sorted_keys := [203], nodes := ["a"] } : ConsistentHash) "b"
     (by decide) (by decide) (by decide) (by decide)).1⟩


end Ring

end DistSync
